import Mathlib

/-!
Verification of the UsenetStreamer NZB triage engine.

This file shallowly embeds the triage engine (`src/services/triage/index.js`)
and the runner (`nzbTriageRunner.js`) into Lean.  JavaScript strings are
modelled as lists of natural-number code units (`JsStr`), buffers as lists of
byte values, and asynchronous probe results (NNTP STAT/BODY, filesystem
inspection, random sampling) as explicit oracle parameters.  Status strings
stay as Lean `String` literals, mirroring the JavaScript string enums.
-/

namespace UsenetStreamer

/-- A JavaScript string or byte buffer: a list of code-unit / byte values. -/
abbrev JsStr := List Nat

/-- ASCII lowercasing of one code unit, the fragment of
`String.prototype.toLowerCase` exercised by archive names. -/
def lowerChar (c : Nat) : Nat :=
  if 65 ≤ c ∧ c ≤ 90 then c + 32 else c

/-- `name.toLowerCase()` on a code-unit list. -/
def lowerStr (s : JsStr) : JsStr := s.map lowerChar

/-- ASCII digit test (`\d` in the JavaScript regexes). -/
def isDigitN (c : Nat) : Bool := 48 ≤ c && c ≤ 57

/-- Does the reversed name match the anchored regex `\.part\d+\.rar$`?
Reversed, the suffix reads `rar.` then one or more digits then `trap.`. -/
def matchesPartRarRev (rev : JsStr) : Bool :=
  rev.take 4 == [114, 97, 114, 46] &&
  (decide ((rev.drop 4).takeWhile isDigitN ≠ []) &&
   (((rev.drop 4).drop ((rev.drop 4).takeWhile isDigitN).length).take 5
      == [116, 114, 97, 112, 46]))

/-- `key.replace(/\.part\d+\.rar$/i, '.rar')`, acting on the reversed name.
The matched region is the unique suffix of shape `.part<digits>.rar`. -/
def stripPartRarRev (rev : JsStr) : JsStr :=
  if matchesPartRarRev rev then
    114 :: 97 :: 114 :: 46 ::
      (((rev.drop 4).drop ((rev.drop 4).takeWhile isDigitN).length).drop 5)
  else rev

/-- Does the reversed name match the anchored regex `\.r\d{2}$`? -/
def matchesR99Rev (rev : JsStr) : Bool :=
  decide (4 ≤ rev.length) && isDigitN (rev.getD 0 0) && isDigitN (rev.getD 1 0) &&
  (rev.getD 2 0 == 114) && (rev.getD 3 0 == 46)

/-- `key.replace(/\.r\d{2}$/i, '.rar')`, acting on the reversed name. -/
def stripR99Rev (rev : JsStr) : JsStr :=
  if matchesR99Rev rev then 114 :: 97 :: 114 :: 46 :: rev.drop 4 else rev

/-- The non-null path of `canonicalArchiveKey`: lowercase, collapse a
`.partNNN.rar` suffix, then collapse a `.rNN` suffix. -/
def canonicalArchiveKey0 (name : JsStr) : JsStr :=
  (stripR99Rev (stripPartRarRev (lowerStr name).reverse)).reverse

/-- `canonicalArchiveKey(name)`: `null` on a falsy (empty) name. -/
def canonicalArchiveKey (name : JsStr) : Option JsStr :=
  if name = [] then none else some (canonicalArchiveKey0 name)

theorem lowerChar_lowerChar (c : Nat) : lowerChar (lowerChar c) = lowerChar c := by
  unfold lowerChar
  split_ifs with h1 h2 <;> omega

theorem lowerStr_lowerStr (l : JsStr) : lowerStr (lowerStr l) = lowerStr l := by
  unfold lowerStr
  rw [List.map_map]
  exact List.map_congr_left fun c _ => lowerChar_lowerChar c

theorem lowerStr_reverse (l : JsStr) : lowerStr l.reverse = (lowerStr l).reverse := by
  simp [lowerStr]

theorem lowerStr_drop (l : JsStr) (n : Nat) : lowerStr (l.drop n) = (lowerStr l).drop n := by
  simp [lowerStr]

theorem lowered_drop {rev : JsStr} (h : lowerStr rev = rev) (n : Nat) :
    lowerStr (rev.drop n) = rev.drop n := by
  rw [lowerStr_drop, h]

theorem lowerStr_stripPartRarRev {rev : JsStr} (h : lowerStr rev = rev) :
    lowerStr (stripPartRarRev rev) = stripPartRarRev rev := by
  unfold stripPartRarRev
  split_ifs with hm
  · have hX := lowered_drop (lowered_drop (lowered_drop h 4)
      ((rev.drop 4).takeWhile isDigitN).length) 5
    show lowerChar 114 :: lowerChar 97 :: lowerChar 114 :: lowerChar 46 ::
      lowerStr (((rev.drop 4).drop ((rev.drop 4).takeWhile isDigitN).length).drop 5) = _
    rw [hX]
    norm_num [lowerChar]
  · exact h

theorem lowerStr_stripR99Rev {rev : JsStr} (h : lowerStr rev = rev) :
    lowerStr (stripR99Rev rev) = stripR99Rev rev := by
  unfold stripR99Rev
  split_ifs with hm
  · have hX := lowered_drop h 4
    show lowerChar 114 :: lowerChar 97 :: lowerChar 114 :: lowerChar 46 ::
      lowerStr (rev.drop 4) = _
    rw [hX]
    norm_num [lowerChar]
  · exact h

theorem lowerStr_canonicalArchiveKey0 (name : JsStr) :
    lowerStr (canonicalArchiveKey0 name) = canonicalArchiveKey0 name := by
  unfold canonicalArchiveKey0
  rw [lowerStr_reverse]
  congr 1
  apply lowerStr_stripR99Rev
  apply lowerStr_stripPartRarRev
  rw [lowerStr_reverse, lowerStr_lowerStr]

theorem matchesR99Rev_stripR99Rev (rev : JsStr) :
    matchesR99Rev (stripR99Rev rev) = false := by
  unfold stripR99Rev
  split_ifs with h
  · simp [matchesR99Rev, isDigitN]
  · simpa using h

theorem matchesR99Rev_stripPartRarRev_of (rev : JsStr)
    (h : matchesR99Rev rev = false) : matchesR99Rev (stripPartRarRev rev) = false := by
  unfold stripPartRarRev
  split_ifs with hm
  · simp [matchesR99Rev, isDigitN]
  · exact h

theorem stripPartRarRev_ne_nil {rev : JsStr} (h : rev ≠ []) : stripPartRarRev rev ≠ [] := by
  unfold stripPartRarRev
  split_ifs <;> simp_all

theorem stripR99Rev_ne_nil {rev : JsStr} (h : rev ≠ []) : stripR99Rev rev ≠ [] := by
  unfold stripR99Rev
  split_ifs <;> simp_all

theorem canonicalArchiveKey0_ne_nil {name : JsStr} (h : name ≠ []) :
    canonicalArchiveKey0 name ≠ [] := by
  unfold canonicalArchiveKey0
  simp only [ne_eq, List.reverse_eq_nil_iff]
  apply stripR99Rev_ne_nil
  apply stripPartRarRev_ne_nil
  simp [lowerStr, h]

/-- Claim C8 counterexample: the canonical archive key is not idempotent.
On `"a.part1.part2.rar"` (code units below) the first application yields
`"a.part1.rar"` and the second application yields `"a.rar"`. -/
theorem canonicalArchiveKey_not_idempotent :
    (canonicalArchiveKey
        [97, 46, 112, 97, 114, 116, 49, 46, 112, 97, 114, 116, 50, 46, 114, 97, 114]).bind
        canonicalArchiveKey ≠
      canonicalArchiveKey
        [97, 46, 112, 97, 114, 116, 49, 46, 112, 97, 114, 116, 50, 46, 114, 97, 114] := by
  decide

set_option maxHeartbeats 1000000 in
/-- Claim C8 (amended): the canonical archive key function is idempotent on
every name whose canonical key does not itself still end in a `.partNNN.rar`
suffix (stacked suffixes such as `name.part1.part2.rar` are the only
exception): for such names, `key (key x) = key x`, where `key` lowercases the
name and collapses `.partNNN.rar` and `.rNN` suffixes to `.rar`. -/
theorem canonicalArchiveKey_idem (name : JsStr)
    (h : matchesPartRarRev (canonicalArchiveKey0 name).reverse = false) :
    (canonicalArchiveKey name).bind canonicalArchiveKey = canonicalArchiveKey name := by
  unfold canonicalArchiveKey
  split_ifs with hnil
  · rfl
  · rw [Option.some_bind]
    rw [if_neg (canonicalArchiveKey0_ne_nil hnil)]
    congr 1
    have hrev : (canonicalArchiveKey0 name).reverse =
        stripR99Rev (stripPartRarRev (lowerStr name).reverse) := by
      unfold canonicalArchiveKey0
      rw [List.reverse_reverse]
    conv_lhs => rw [canonicalArchiveKey0]
    rw [lowerStr_canonicalArchiveKey0]
    rw [stripPartRarRev, if_neg (by simp [h])]
    rw [stripR99Rev, if_neg (by rw [hrev]; simp [matchesR99Rev_stripR99Rev])]
    rw [List.reverse_reverse]

/-- Witness for the amended claim C8 at the concrete name `"movie.part003.rar"`. -/
theorem canonicalArchiveKey_idem_witness :
    matchesPartRarRev (canonicalArchiveKey0
        [109, 111, 118, 105, 101, 46, 112, 97, 114, 116, 48, 48, 51, 46, 114, 97, 114]).reverse
        = false ∧
    (canonicalArchiveKey
        [109, 111, 118, 105, 101, 46, 112, 97, 114, 116, 48, 48, 51, 46, 114, 97, 114]).bind
        canonicalArchiveKey =
      canonicalArchiveKey
        [109, 111, 118, 105, 101, 46, 112, 97, 114, 116, 48, 48, 51, 46, 114, 97, 114] :=
  ⟨by decide, canonicalArchiveKey_idem _ (by decide)⟩

/-! ### Archive inspector (`inspectArchiveBuffer`, `inspectRar4`, `inspectRar5`,
`inspectSevenZip`) -/

/-- `buffer[i]`; every use in the source is preceded by a bounds check. -/
def byteAt (b : JsStr) (i : Nat) : Nat := b.getD i 0

/-- `buffer.readUInt16LE(i)`. -/
def readUInt16LE (b : JsStr) (i : Nat) : Nat := byteAt b i + 256 * byteAt b (i + 1)

def RAR4_SIGNATURE : JsStr := [0x52, 0x61, 0x72, 0x21, 0x1A, 0x07, 0x00]

def RAR5_SIGNATURE : JsStr := [0x52, 0x61, 0x72, 0x21, 0x1A, 0x07, 0x01, 0x00]

/-- Result record of the archive inspector: the `status` string plus the
optional `details` payload (`name`, `method`, `note`). -/
structure InspectResult where
  status : String
  name : Option JsStr := none
  method : Option Nat := none
  note : Option String := none
deriving DecidableEq

/-- The `headerType === 0x74` branch of `inspectRar4`: parse the file header
at `offset` (fixed-offset fields, then the name) and classify it. -/
def inspectRar4FileHeader (b : JsStr) (offset : Nat) (headerFlags : Nat) : InspectResult :=
  if b.length < offset + 7 + 11 then ⟨"rar-insufficient-data", none, none, none⟩
  else if b.length ≤ offset + 24 then ⟨"rar-insufficient-data", none, none, none⟩
  else
    let methodByte := byteAt b (offset + 25)
    if b.length < offset + 28 then ⟨"rar-insufficient-data", none, none, none⟩
    else
      let nameSize := readUInt16LE b (offset + 26)
      let pos := offset + 32 + (if headerFlags &&& 0x0100 ≠ 0 then 4 else 0) +
        (if headerFlags &&& 0x0200 ≠ 0 then 4 else 0)
      if b.length < pos + nameSize then ⟨"rar-insufficient-data", none, none, none⟩
      else
        let name := ((b.drop pos).take nameSize).filter (· ≠ 0)
        if headerFlags &&& 0x0004 ≠ 0 then ⟨"rar-encrypted", some name, none, none⟩
        else if headerFlags &&& 0x0010 ≠ 0 then ⟨"rar-solid", some name, none, none⟩
        else if methodByte ≠ 0x30 then ⟨"rar-compressed", some name, some methodByte, none⟩
        else ⟨"rar-stored", some name, some methodByte, none⟩

/-- The block-scan loop of `inspectRar4`: `while (offset + 7 <= buffer.length)`,
stepping by `headerSize`. -/
def inspectRar4Scan (b : JsStr) (offset : Nat) : InspectResult :=
  if hwhile : offset + 7 ≤ b.length then
    let headerType := byteAt b (offset + 2)
    let headerFlags := readUInt16LE b (offset + 3)
    let headerSize := readUInt16LE b (offset + 5)
    if hsmall : headerSize < 7 then ⟨"rar-corrupt-header", none, none, none⟩
    else if hover : b.length < offset + headerSize then ⟨"rar-insufficient-data", none, none, none⟩
    else if headerType = 0x74 then inspectRar4FileHeader b offset headerFlags
    else inspectRar4Scan b (offset + headerSize)
  else ⟨"rar-header-not-found", none, none, none⟩
termination_by b.length - offset
decreasing_by omega

/-- `inspectRar4`: scan starts right after the 7-byte RAR4 signature. -/
def inspectRar4 (b : JsStr) : InspectResult := inspectRar4Scan b RAR4_SIGNATURE.length

/-- `inspectRar5`: RAR5 deep parsing is deferred; assumed stored. -/
def inspectRar5 (_b : JsStr) : InspectResult :=
  ⟨"rar-stored", none, none, some "rar5-header-assumed-stored"⟩

/-- `inspectSevenZip`. -/
def inspectSevenZip (b : JsStr) : InspectResult :=
  if b.length < 32 then ⟨"sevenzip-insufficient-data", none, none, none⟩
  else if byteAt b 6 = 0 then ⟨"sevenzip-stored", none, none, none⟩
  else ⟨"sevenzip-unsupported", none, some (byteAt b 6), none⟩

/-- `inspectArchiveBuffer`: dispatch on the RAR4 / RAR5 / 7z signatures. -/
def inspectArchiveBuffer (b : JsStr) : InspectResult :=
  if RAR4_SIGNATURE.length ≤ b.length ∧ b.take RAR4_SIGNATURE.length = RAR4_SIGNATURE then
    inspectRar4 b
  else if RAR5_SIGNATURE.length ≤ b.length ∧ b.take RAR5_SIGNATURE.length = RAR5_SIGNATURE then
    inspectRar5 b
  else if 6 ≤ b.length ∧ byteAt b 0 = 0x37 ∧ byteAt b 1 = 0x7A then
    inspectSevenZip b
  else ⟨"rar-header-not-found", none, none, none⟩

/-- All data-sufficiency bounds of the RAR4 file-header parse at `offset`,
in the order the source checks them. -/
def rar4FileHeaderComplete (b : JsStr) (offset : Nat) : Prop :=
  offset + 18 ≤ b.length ∧ offset + 25 ≤ b.length ∧ offset + 28 ≤ b.length ∧
  offset + 32 + (if readUInt16LE b (offset + 3) &&& 0x0100 ≠ 0 then 4 else 0) +
    (if readUInt16LE b (offset + 3) &&& 0x0200 ≠ 0 then 4 else 0) +
    readUInt16LE b (offset + 26) ≤ b.length

instance (b : JsStr) (offset : Nat) : Decidable (rar4FileHeaderComplete b offset) := by
  unfold rar4FileHeaderComplete
  infer_instance

theorem inspectRar4FileHeader_status (b : JsStr) (offset : Nat)
    (hcomp : rar4FileHeaderComplete b offset) :
    (inspectRar4FileHeader b offset (readUInt16LE b (offset + 3))).status =
      (if readUInt16LE b (offset + 3) &&& 0x0004 ≠ 0 then "rar-encrypted"
       else if readUInt16LE b (offset + 3) &&& 0x0010 ≠ 0 then "rar-solid"
       else if byteAt b (offset + 25) ≠ 0x30 then "rar-compressed"
       else "rar-stored") := by
  obtain ⟨hc1, hc2, hc3, hc4⟩ := hcomp
  simp only [inspectRar4FileHeader]
  set d4 := (if readUInt16LE b (offset + 3) &&& 0x0100 ≠ 0 then 4 else 0 : Nat) with hd4
  set e4 := (if readUInt16LE b (offset + 3) &&& 0x0200 ≠ 0 then 4 else 0 : Nat) with he4
  split_ifs <;> first | rfl | (exfalso; omega)

/-- Claim C4: the RAR4 scan returns `rar-header-not-found` when the buffer is
exhausted; on a complete RAR4 file header the status is decided in the order
encrypted (`flags & 0x0004`) → solid (`flags & 0x0010`) →
compressed (`methodByte ≠ 0x30`) → stored; and any buffer beginning with the
8-byte RAR5 signature yields `rar-stored` unconditionally. -/
theorem inspectArchive_rar4_order_and_rar5 :
    (∀ (b : JsStr) (offset : Nat), b.length < offset + 7 →
      inspectRar4Scan b offset = ⟨"rar-header-not-found", none, none, none⟩) ∧
    (∀ (b : JsStr) (offset : Nat),
      offset + 7 ≤ b.length →
      byteAt b (offset + 2) = 0x74 →
      7 ≤ readUInt16LE b (offset + 5) →
      offset + readUInt16LE b (offset + 5) ≤ b.length →
      rar4FileHeaderComplete b offset →
      (inspectRar4Scan b offset).status =
        (if readUInt16LE b (offset + 3) &&& 0x0004 ≠ 0 then "rar-encrypted"
         else if readUInt16LE b (offset + 3) &&& 0x0010 ≠ 0 then "rar-solid"
         else if byteAt b (offset + 25) ≠ 0x30 then "rar-compressed"
         else "rar-stored")) ∧
    (∀ b : JsStr, b.take 8 = RAR5_SIGNATURE →
      (inspectArchiveBuffer b).status = "rar-stored") := by
  refine ⟨?_, ?_, ?_⟩
  · intro b offset hlt
    rw [inspectRar4Scan]
    rw [dif_neg (by omega)]
  · intro b offset hwhile htype hsize hbound hcomp
    have hstep : inspectRar4Scan b offset =
        inspectRar4FileHeader b offset (readUInt16LE b (offset + 3)) := by
      rw [inspectRar4Scan]
      simp only [dif_pos hwhile]
      split_ifs <;> first | rfl | (exfalso; omega)
    rw [hstep]
    exact inspectRar4FileHeader_status b offset hcomp
  · intro b hsig
    have hlen : 8 ≤ b.length := by
      have := congrArg List.length hsig
      simp [RAR5_SIGNATURE] at this
      omega
    have h7 : b.take 7 = [0x52, 0x61, 0x72, 0x21, 0x1A, 0x07, 0x01] := by
      have : b.take 7 = (b.take 8).take 7 := by
        rw [List.take_take]
        norm_num
      rw [this, hsig]
      rfl
    rw [inspectArchiveBuffer]
    rw [if_neg (by rw [show RAR4_SIGNATURE.length = 7 from rfl, h7]; simp [RAR4_SIGNATURE])]
    rw [if_pos (by exact ⟨hlen, by rw [show RAR5_SIGNATURE.length = 8 from rfl]; exact hsig⟩)]
    rfl

/-- A concrete 39-byte RAR4 buffer: signature, then an encrypted
(`flags = 0x0004`) file header of size 32 with an empty name. -/
def rar4EncryptedSample : JsStr :=
  RAR4_SIGNATURE ++ [0, 0, 0x74, 0x04, 0x00, 32, 0] ++ List.replicate 25 0

/-- A concrete buffer that is exactly the RAR5 signature. -/
def rar5Sample : JsStr := RAR5_SIGNATURE

/-- Witness for claim C4: the three conjuncts applied at concrete buffers. -/
theorem inspectArchive_rar4_order_and_rar5_witness :
    inspectRar4Scan [] 0 = ⟨"rar-header-not-found", none, none, none⟩ ∧
    (inspectRar4Scan rar4EncryptedSample 7).status = "rar-encrypted" ∧
    (inspectArchiveBuffer rar5Sample).status = "rar-stored" := by
  refine ⟨inspectArchive_rar4_order_and_rar5.1 [] 0 (by decide), ?_,
    inspectArchive_rar4_order_and_rar5.2.2 rar5Sample (by decide)⟩
  have h := inspectArchive_rar4_order_and_rar5.2.1 rar4EncryptedSample 7
    (by decide) (by decide) (by decide) (by decide) (by decide)
  rw [h]
  decide

/-! ### yEnc decoder (`decodeYencBuffer`) -/

/-- Split a byte buffer on CRLF (`bodyBuffer.toString('binary').split('\r\n')`). -/
def splitCRLF : JsStr → List JsStr
  | [] => [[]]
  | 13 :: 10 :: rest => [] :: splitCRLF rest
  | c :: rest =>
    match splitCRLF rest with
    | [] => [[c]]
    | line :: more => (c :: line) :: more

/-- `line.startsWith(p)` on byte lists. -/
def startsWithB (p s : JsStr) : Bool := s.take p.length == p

/-- The code units of `"=ybegin"`. -/
def yBeginMark : JsStr := [61, 121, 98, 101, 103, 105, 110]

/-- The code units of `"=ypart"`. -/
def yPartMark : JsStr := [61, 121, 112, 97, 114, 116]

/-- The code units of `"=yend"`. -/
def yEndMark : JsStr := [61, 121, 101, 110, 100]

/-- The per-byte loop of `decodeYencBuffer` over one line.  State is the
output written so far (carried across lines); the returned flag records
whether the `writeIndex >= maxBytes` early return fired.  The `& 0xff`
wrap-arounds `(src[i] - 64) & 0xff` and `(byte - 42) & 0xff` on byte values
are `(n + 192) % 256` and `(n + 214) % 256`. -/
def decodeYencLine (maxBytes : Nat) : JsStr → JsStr → JsStr × Bool
  | [], out => (out, false)
  | c :: rest, out =>
    if c = 61 then
      match rest with
      | [] => (out, false)
      | n :: rest2 =>
        let out2 := if out.length < maxBytes then out ++ [(((n + 192) % 256) + 214) % 256] else out
        if maxBytes ≤ out.length + 1 then (out2, true)
        else decodeYencLine maxBytes rest2 out2
    else
      let out2 := if out.length < maxBytes then out ++ [(c + 214) % 256] else out
      if maxBytes ≤ out.length + 1 then (out2, true)
      else decodeYencLine maxBytes rest out2

/-- The line loop of `decodeYencBuffer`: skip until `=ybegin`, then skip
`=ypart`, stop at `=yend`, decode payload lines, stop early at the cap. -/
def decodeYencLines (maxBytes : Nat) : List JsStr → Bool → JsStr → JsStr × Bool
  | [], _, out => (out, false)
  | line :: rest, false, out =>
    decodeYencLines maxBytes rest (startsWithB yBeginMark line) out
  | line :: rest, true, out =>
    if startsWithB yPartMark line then decodeYencLines maxBytes rest true out
    else if startsWithB yEndMark line then (out, false)
    else
      match decodeYencLine maxBytes line out with
      | (out2, true) => (out2, true)
      | (out2, false) => decodeYencLines maxBytes rest true out2

/-- `decodeYencBuffer(bodyBuffer, maxBytes)`: `DECODE_ERROR` when the loop
finishes with zero bytes written, the decoded prefix otherwise. -/
def decodeYencBuffer (body : JsStr) (maxBytes : Nat) : Except String JsStr :=
  match decodeYencLines maxBytes (splitCRLF body) false [] with
  | (out, true) => .ok out
  | (out, false) => if out.length = 0 then .error "DECODE_ERROR" else .ok out

/-- Refinement spec for C5, following the claim text: each payload byte `c`
emits `(c − 42) mod 256`, except `c = 0x3D` consumes the following byte `n`
and emits `(n − 64 − 42) mod 256` (a trailing lone `=` emits nothing). -/
def specDecodeLine : JsStr → JsStr
  | [] => []
  | c :: rest =>
    if c = 61 then
      match rest with
      | [] => []
      | n :: rest2 => ((((n : Int) - 64 - 42) % 256).toNat) :: specDecodeLine rest2
    else ((((c : Int) - 42) % 256).toNat) :: specDecodeLine rest

/-- Refinement spec for C5: the lines following the first `=ybegin` line. -/
def specAfterYBegin : List JsStr → Option (List JsStr)
  | [] => none
  | line :: rest => if startsWithB yBeginMark line then some rest else specAfterYBegin rest

/-- Refinement spec for C5: payload lines, skipping `=ypart` and stopping
at the first `=yend`. -/
def specPayloadLines : List JsStr → List JsStr
  | [] => []
  | line :: rest =>
    if startsWithB yPartMark line then specPayloadLines rest
    else if startsWithB yEndMark line then []
    else line :: specPayloadLines rest

/-- Refinement spec for C5: the full (uncapped) decoded payload of a body. -/
def specYencPayload (body : JsStr) : JsStr :=
  match specAfterYBegin (splitCRLF body) with
  | none => []
  | some rest => ((specPayloadLines rest).map specDecodeLine).flatten

theorem emit_escape (n : Nat) :
    ((((n : Int) - 64 - 42) % 256).toNat) = (((n + 192) % 256) + 214) % 256 := by
  omega

theorem emit_plain (c : Nat) :
    ((((c : Int) - 42) % 256).toNat) = (c + 214) % 256 := by
  omega

theorem decodeYencLine_eq (maxBytes : Nat) (src out : JsStr) :
    out.length < maxBytes →
    decodeYencLine maxBytes src out =
      (out ++ (specDecodeLine src).take (maxBytes - out.length),
       decide (maxBytes - out.length ≤ (specDecodeLine src).length)) := by
  induction src, out using decodeYencLine.induct maxBytes with
  | case1 out =>
    intro h
    simp only [decodeYencLine, specDecodeLine]
    simp only [List.take_nil, List.append_nil, List.length_nil]
    rw [decide_eq_false (by omega)]
  | case2 out =>
    intro h
    simp only [decodeYencLine, specDecodeLine, ite_true, if_true]
    simp only [List.take_nil, List.append_nil, List.length_nil]
    rw [decide_eq_false (by omega)]
  | case3 out n rest2 hstop =>
    intro h
    have hk : maxBytes - out.length = 1 := by omega
    simp only [decodeYencLine, specDecodeLine, ite_true, if_true, if_pos h, if_pos hstop, hk,
      List.take_succ_cons, List.take_zero, List.length_cons]
    rw [emit_escape, decide_eq_true (by omega)]
  | case4 out n rest2 out2 hnot ih =>
    intro h
    have hout2 : out2 = out ++ [((n + 192) % 256 + 214) % 256] := if_pos h
    rw [hout2] at ih
    have ih2 := ih (by simp only [List.length_append, List.length_cons, List.length_nil]; omega)
    simp only [decodeYencLine, specDecodeLine, ite_true, if_true, if_pos h, if_neg hnot]
    rw [ih2]
    have hk : maxBytes - out.length = (maxBytes - (out.length + 1)) + 1 := by omega
    rw [hk, List.take_succ_cons]
    refine congrArg₂ Prod.mk ?_ ?_
    · rw [emit_escape]
      simp only [List.append_assoc, List.singleton_append, List.length_append,
        List.length_cons, List.length_nil]
    · rw [decide_eq_decide]
      simp only [List.length_append, List.length_cons, List.length_nil]
      omega
  | case5 c rest out hc hstop =>
    intro h
    have hk : maxBytes - out.length = 1 := by omega
    cases rest with
    | nil =>
      simp only [decodeYencLine, specDecodeLine, if_neg hc, if_pos h, if_pos hstop, hk,
        List.take_succ_cons, List.take_zero, List.length_cons]
      rw [emit_plain, decide_eq_true (by omega)]
    | cons b tl =>
      simp only [decodeYencLine, specDecodeLine, if_neg hc, if_pos h, if_pos hstop, hk,
        List.take_succ_cons, List.take_zero, List.length_cons]
      rw [emit_plain, decide_eq_true (by omega)]
  | case6 c rest out hc out2 hnot ih =>
    intro h
    have hout2 : out2 = out ++ [(c + 214) % 256] := if_pos h
    rw [hout2] at ih
    have ih2 := ih (by simp only [List.length_append, List.length_cons, List.length_nil]; omega)
    have hk : maxBytes - out.length = (maxBytes - (out.length + 1)) + 1 := by omega
    cases rest with
    | nil =>
      simp only [decodeYencLine, specDecodeLine, if_neg hc, if_pos h, if_neg hnot]
      rw [emit_plain,
        List.take_of_length_le (by simp only [List.length_cons, List.length_nil]; omega),
        decide_eq_false (by simp only [List.length_cons, List.length_nil]; omega)]
    | cons b tl =>
      simp only [decodeYencLine, specDecodeLine, if_neg hc, if_pos h, if_neg hnot]
      rw [ih2, hk, List.take_succ_cons]
      refine congrArg₂ Prod.mk ?_ ?_
      · rw [emit_plain]
        simp only [List.append_assoc, List.singleton_append, List.length_append,
          List.length_cons, List.length_nil]
      · rw [decide_eq_decide]
        simp only [List.length_append, List.length_cons, List.length_nil]
        omega

theorem decodeYencLines_eq (maxBytes : Nat) (lines : List JsStr) (out : JsStr) :
    out.length < maxBytes →
    decodeYencLines maxBytes lines true out =
      (out ++ (((specPayloadLines lines).map specDecodeLine).flatten).take (maxBytes - out.length),
       decide (maxBytes - out.length ≤
         (((specPayloadLines lines).map specDecodeLine).flatten).length)) := by
  induction lines generalizing out with
  | nil =>
    intro h
    simp only [decodeYencLines, specPayloadLines]
    simp only [List.map_nil, List.flatten_nil, List.take_nil, List.append_nil, List.length_nil]
    rw [decide_eq_false (by omega)]
  | cons line rest ih =>
    intro h
    simp only [decodeYencLines, specPayloadLines]
    by_cases hpart : startsWithB yPartMark line = true
    · simp only [if_pos hpart]
      exact ih out h
    · simp only [if_neg hpart]
      by_cases hend : startsWithB yEndMark line = true
      · simp only [if_pos hend]
        simp only [specPayloadLines, List.map_nil, List.flatten_nil, List.take_nil,
          List.append_nil, List.length_nil]
        rw [decide_eq_false (by omega)]
      · simp only [if_neg hend]
        rw [decodeYencLine_eq maxBytes line out h]
        simp only [List.map_cons, List.flatten_cons]
        by_cases hearly : maxBytes - out.length ≤ (specDecodeLine line).length
        · rw [decide_eq_true hearly]
          refine congrArg₂ Prod.mk ?_ ?_
          · rw [List.take_append_eq_append_take,
              show maxBytes - out.length - (specDecodeLine line).length = 0 by omega,
              List.take_zero, List.append_nil]
          · exact (decide_eq_true (by simp only [List.length_append]; omega)).symm
        · rw [decide_eq_false hearly]
          push_neg at hearly
          rw [List.take_of_length_le (by omega)]
          have hout2 : (out ++ specDecodeLine line).length < maxBytes := by
            simp only [List.length_append]
            omega
          show decodeYencLines maxBytes rest true (out ++ specDecodeLine line) = _
          rw [ih _ hout2]
          refine congrArg₂ Prod.mk ?_ ?_
          · rw [List.take_append_eq_append_take]
            rw [List.take_of_length_le
              (show (specDecodeLine line).length ≤ maxBytes - out.length by omega)]
            rw [List.append_assoc]
            refine congrArg _ (congrArg _ (congrArg₂ List.take ?_ rfl))
            simp only [List.length_append]
            omega
          · rw [decide_eq_decide]
            simp only [List.length_append]
            omega

theorem decodeYencLines_skip (maxBytes : Nat) (lines : List JsStr) (out : JsStr) :
    decodeYencLines maxBytes lines false out =
      (match specAfterYBegin lines with
       | none => (out, false)
       | some rest => decodeYencLines maxBytes rest true out) := by
  induction lines with
  | nil => rfl
  | cons line rest ih =>
    simp only [decodeYencLines, specAfterYBegin]
    cases hb : startsWithB yBeginMark line with
    | true => rfl
    | false => exact ih

theorem decodeYencLine_zero (src out : JsStr) : (decodeYencLine 0 src out).1 = out := by
  cases src with
  | nil => rfl
  | cons c rest =>
    cases rest with
    | nil =>
      simp only [decodeYencLine]
      split_ifs <;> first | rfl | (exfalso; omega)
    | cons b tl =>
      simp only [decodeYencLine]
      split_ifs <;> first | rfl | (exfalso; omega)

theorem decodeYencLines_zero (lines : List JsStr) (dec : Bool) (out : JsStr) :
    (decodeYencLines 0 lines dec out).1 = out := by
  induction lines generalizing dec out with
  | nil => cases dec <;> rfl
  | cons line rest ih =>
    cases dec with
    | false => exact ih _ _
    | true =>
      simp only [decodeYencLines]
      split_ifs with hpart hend
      · exact ih _ _
      · rfl
      · rcases hdl : decodeYencLine 0 line out with ⟨out2, flag⟩
        have ho : out2 = out := by
          have h0 := decodeYencLine_zero line out
          rw [hdl] at h0
          exact h0
        cases flag with
        | true => simpa using ho
        | false =>
          simp only
          rw [ho]
          exact ih _ _

/-- Claim C5 counterexample: with `maxBytes = 0` and body `"=ybegin\r\nA"`,
the decoder returns an empty success, producing zero output bytes without
raising `DECODE_ERROR`, although the payload is non-empty.  This refutes the
unrestricted "fails iff zero output bytes" biconditional. -/
theorem decodeYenc_zero_not_error :
    decodeYencBuffer [61, 121, 98, 101, 103, 105, 110, 13, 10, 65] 0 = .ok [] ∧
    specYencPayload [61, 121, 98, 101, 103, 105, 110, 13, 10, 65] ≠ [] :=
  ⟨rfl, by decide⟩

/-- Claim C5 (amended): the yEnc decoder emits, for each payload byte `c`
between `=ybegin` and `=yend`, `(c − 42) mod 256`, with `c = 0x3D` consuming
the following byte `n` and emitting `(n − 64 − 42) mod 256`; its output never
exceeds `maxBytes` bytes; and, provided `maxBytes ≥ 1`, it fails with
`DECODE_ERROR` iff zero output bytes were produced (for `maxBytes = 0` it
returns an empty success instead). -/
theorem decodeYencBuffer_spec :
    (∀ (body : JsStr) (maxBytes : Nat) (out : JsStr),
        decodeYencBuffer body maxBytes = .ok out → out.length ≤ maxBytes) ∧
    (∀ (body : JsStr) (maxBytes : Nat), 1 ≤ maxBytes →
        decodeYencBuffer body maxBytes =
          (if specYencPayload body = [] then .error "DECODE_ERROR"
           else .ok ((specYencPayload body).take maxBytes))) := by
  have hmain : ∀ (body : JsStr) (maxBytes : Nat), 1 ≤ maxBytes →
      decodeYencBuffer body maxBytes =
        (if specYencPayload body = [] then .error "DECODE_ERROR"
         else .ok ((specYencPayload body).take maxBytes)) := by
    intro body maxBytes h1
    unfold decodeYencBuffer specYencPayload
    rw [decodeYencLines_skip]
    cases hafter : specAfterYBegin (splitCRLF body) with
    | none =>
      dsimp only
      simp only [List.length_nil, if_pos rfl]
      rfl
    | some rest =>
      dsimp only
      rw [decodeYencLines_eq maxBytes rest [] (by simpa using h1)]
      simp only [List.length_nil, Nat.sub_zero, List.nil_append]
      by_cases hearly :
          maxBytes ≤ ((specPayloadLines rest).map specDecodeLine).flatten.length
      · rw [decide_eq_true hearly]
        rw [if_neg (by intro hnil; rw [hnil] at hearly; simp at hearly; omega)]
      · rw [decide_eq_false hearly]
        push_neg at hearly
        rw [List.take_of_length_le (by omega)]
        dsimp only
        by_cases hnil : ((specPayloadLines rest).map specDecodeLine).flatten = []
        · rw [if_pos hnil, if_pos (by rw [hnil]; rfl)]
        · rw [if_neg hnil, if_neg (fun h => hnil (List.length_eq_zero.mp h))]
  refine ⟨?_, hmain⟩
  intro body maxBytes out hok
  match maxBytes with
  | 0 =>
    unfold decodeYencBuffer at hok
    rcases hres : decodeYencLines 0 (splitCRLF body) false [] with ⟨o, flag⟩
    have ho : o = [] := by
      have h0 := decodeYencLines_zero (splitCRLF body) false []
      rw [hres] at h0
      exact h0
    rw [hres] at hok
    cases flag with
    | true =>
      simp only at hok
      cases hok
      simp [ho]
    | false =>
      simp only at hok
      split_ifs at hok with hz
      cases hok
      simp [ho]
  | m + 1 =>
    rw [hmain body (m + 1) (by omega)] at hok
    split_ifs at hok
    cases hok
    simp only [List.length_take]
    omega

/-- Witness for the amended claim C5 at body `"=ybegin\r\nABC"` and
`maxBytes = 2`: the decode succeeds with the 2-byte prefix `[23, 24]`. -/
theorem decodeYencBuffer_spec_witness :
    ([23, 24] : JsStr).length ≤ 2 ∧
    decodeYencBuffer [61, 121, 98, 101, 103, 105, 110, 13, 10, 65, 66, 67] 2 =
      (if specYencPayload [61, 121, 98, 101, 103, 105, 110, 13, 10, 65, 66, 67] = [] then
        .error "DECODE_ERROR"
       else .ok ((specYencPayload
         [61, 121, 98, 101, 103, 105, 110, 13, 10, 65, 66, 67]).take 2)) :=
  ⟨decodeYencBuffer_spec.1 [61, 121, 98, 101, 103, 105, 110, 13, 10, 65, 66, 67] 2 [23, 24] rfl,
   decodeYencBuffer_spec.2 [61, 121, 98, 101, 103, 105, 110, 13, 10, 65, 66, 67] 2 (by omega)⟩

/-! ### STAT error semantics (`statSegmentWithClient`) and client lifecycle
(`runWithClient`) -/

/-- A JavaScript error-`code` value: the source mixes strings (`'STAT_MISSING'`,
`'ETIMEDOUT'`, …) and the bare number `430`. -/
inductive JsCode where
  | str (s : String)
  | num (n : Int)
deriving DecidableEq

/-- A JavaScript error as the triage engine builds them: a `code`, a
`message`, and the ad-hoc `dropClient` flag (modelled as its truthiness). -/
structure JsError where
  code : Option JsCode := none
  message : JsStr := []
  dropClient : Bool := false
deriving DecidableEq

/-- Code units of a Lean string literal (all source literals are ASCII). -/
def strUnits (s : String) : JsStr := s.toList.map Char.toNat

/-- `STAT_TIMEOUT_MS` (the hard per-STAT timeout). -/
def STAT_TIMEOUT_MS : Nat := 5000

/-- The transport codes `['ETIMEDOUT', 'ECONNRESET', 'ECONNABORTED', 'EPIPE']`. -/
def transportCodes : List JsCode :=
  [.str "ETIMEDOUT", .str "ECONNRESET", .str "ECONNABORTED", .str "EPIPE"]

/-- The code units of `"430"`. -/
def msg430 : JsStr := [52, 51, 48]

/-- `message.includes(pat)`: substring containment on code-unit lists. -/
def containsSub (pat : JsStr) : JsStr → Bool
  | [] => pat == []
  | c :: rest => startsWithB pat (c :: rest) || containsSub pat rest

/-- The first observable outcome of one `client.stat` call inside
`statSegmentWithClient`: either the 5000 ms timer fires first, or the NNTP
callback runs first, with no error or with an error carrying an optional
`code` and a `message`.  (The `completed` flag in the source makes the two
races mutually exclusive, which is why a single event suffices.) -/
inductive StatEvent where
  | timerFired
  | ok
  | err (code : Option JsCode) (message : JsStr)
deriving DecidableEq

/-- `statSegmentWithClient`, as a function of the observable STAT event. -/
def statSegmentResult (ev : StatEvent) : Except JsError Unit :=
  match ev with
  | .timerFired =>
    .error ⟨some (.str "STAT_TIMEOUT"), strUnits "STAT timed out after 5s", true⟩
  | .ok => Except.ok ()
  | .err code message =>
    let messageOut := if message = [] then strUnits "STAT failed" else message
    let codeFromMessage : Option JsCode :=
      if message ≠ [] ∧ containsSub msg430 message then some (.str "STAT_MISSING") else code
    let finalCode : Option JsCode :=
      match code with
      | some c => some c
      | none => codeFromMessage
    let drop : Bool :=
      match code with
      | some c => transportCodes.contains c
      | none => false
    .error ⟨finalCode, messageOut, drop⟩

/-- The `dropClient` flag of a settled STAT result (`false` on success). -/
def resultDropClient : Except JsError Unit → Bool
  | .error e => e.dropClient
  | .ok _ => false

/-- Claim C6 counterexample: a STAT failure whose transport code is
`ECONNRESET` and whose error text contains `"430"` (here the text is exactly
`"430"`).  By the claim's definition this is a missing-article failure and
must never set `dropClient`, but the source sets `dropClient = true` for
every transport-listed code regardless of the message. -/
theorem statSegment_430_text_still_drops :
    containsSub msg430 msg430 = true ∧
    resultDropClient (statSegmentResult (.err (some (.str "ECONNRESET")) msg430)) = true := by
  constructor <;> rfl

/-- Claim C6 (amended): a STAT call whose 5000 ms timer fires first rejects
with code `STAT_TIMEOUT` and `dropClient = true`; a STAT failure with
transport code `ETIMEDOUT`, `ECONNRESET`, `ECONNABORTED` or `EPIPE` sets
`dropClient = true`; and a missing-article failure — transport code `430`,
or no code at all with error text containing `"430"` (the `STAT_MISSING`
classification) — never sets `dropClient`. -/
theorem statSegment_drop_semantics :
    (STAT_TIMEOUT_MS = 5000 ∧
     statSegmentResult .timerFired =
       .error ⟨some (.str "STAT_TIMEOUT"), strUnits "STAT timed out after 5s", true⟩) ∧
    (∀ (c : JsCode) (message : JsStr), c ∈ transportCodes →
      resultDropClient (statSegmentResult (.err (some c) message)) = true) ∧
    (∀ message : JsStr,
      resultDropClient (statSegmentResult (.err (some (.num 430)) message)) = false) ∧
    (∀ message : JsStr, message ≠ [] → containsSub msg430 message = true →
      resultDropClient (statSegmentResult (.err none message)) = false) := by
  refine ⟨⟨rfl, rfl⟩, ?_, ?_, ?_⟩
  · intro c message hc
    simp only [statSegmentResult, resultDropClient]
    exact List.elem_eq_true_of_mem hc
  · intro message
    rfl
  · intro message hne h430
    rfl

/-- Witness for the amended claim C6 at concrete events: an `ETIMEDOUT`
failure drops, a numeric-430 failure does not, and a codeless failure whose
text is `"430"` does not. -/
theorem statSegment_drop_semantics_witness :
    resultDropClient (statSegmentResult (.err (some (.str "ETIMEDOUT")) [])) = true ∧
    resultDropClient (statSegmentResult (.err (some (.num 430)) [])) = false ∧
    resultDropClient (statSegmentResult (.err none msg430)) = false :=
  ⟨statSegment_drop_semantics.2.1 (.str "ETIMEDOUT") [] (List.mem_cons_self _ _),
   statSegment_drop_semantics.2.2.1 [],
   statSegment_drop_semantics.2.2.2 msg430 (by decide) (by decide)⟩

/-- The post-acquire body of `runWithClient`: given the handler's outcome for
the acquired (non-null) client, return the propagated outcome together with
the list of `pool.release(client, { drop })` calls it performs.  The source
initializes `dropClient = false`, sets it in the `catch` when the thrown
error's `dropClient` field is truthy, rethrows, and releases once in the
`finally`. -/
def runWithClientAfterAcquire {α : Type} (client : Nat) (handlerOutcome : Except JsError α) :
    Except JsError α × List (Nat × Bool) :=
  match handlerOutcome with
  | .ok v => (.ok v, [(client, false)])
  | .error e => (.error e, [(client, if e.dropClient then true else false)])

/-- Claim C10: for every call of `runWithClient` that acquired a non-null
client, the client is released exactly once, with `drop = true` iff the
handler threw an error whose `dropClient` field is truthy, and the handler's
result or error is propagated unchanged. -/
theorem runWithClient_release_once {α : Type} (client : Nat) (r : Except JsError α) :
    (runWithClientAfterAcquire client r).1 = r ∧
    (runWithClientAfterAcquire client r).2.map Prod.fst = [client] ∧
    ∀ d : Bool, (client, d) ∈ (runWithClientAfterAcquire client r).2 →
      (d = true ↔ ∃ e, r = .error e ∧ e.dropClient = true) := by
  refine ⟨?_, ?_, ?_⟩
  · cases r <;> rfl
  · cases r <;> rfl
  · intro d hd
    cases r with
    | ok v =>
      simp only [runWithClientAfterAcquire, List.mem_singleton, Prod.mk.injEq] at hd
      constructor
      · intro hdt
        rw [hd.2] at hdt
        cases hdt
      · rintro ⟨e, he, _⟩
        cases he
    | error e =>
      simp only [runWithClientAfterAcquire, List.mem_singleton, Prod.mk.injEq] at hd
      constructor
      · intro hdt
        refine ⟨e, rfl, ?_⟩
        rw [hd.2] at hdt
        by_cases hdrop : e.dropClient = true
        · exact hdrop
        · rw [if_neg hdrop] at hdt
          cases hdt
      · rintro ⟨e2, he2, hdrop⟩
        cases he2
        rw [hd.2, if_pos hdrop]

/-- Witness for claim C10 at client `5` and a handler that throws an error
with a truthy `dropClient`. -/
theorem runWithClient_release_once_witness :
    (runWithClientAfterAcquire 5
        (Except.error (⟨none, [], true⟩ : JsError) : Except JsError Nat)).2.map Prod.fst
      = [5] ∧
    (true = true ↔ ∃ e,
      (Except.error (⟨none, [], true⟩ : JsError) : Except JsError Nat) = Except.error e ∧
      e.dropClient = true) :=
  ⟨(runWithClient_release_once 5 _).2.1,
   (runWithClient_release_once 5 _).2.2 true (by decide)⟩

/-! ### NNTP pool state machine (`createNntpPool` closures) -/

/-- The pool-internal mutable cells of `createNntpPool`: `idle`, `waiters`
(resolver queue), `allClients`, and the `closing` flag.  Clients and waiters
are numbered; timers and `lastUsed` carry no information the modelled
transitions read beyond the guards encoded below. -/
structure PoolState where
  idle : List Nat
  waiters : List Nat
  allClients : List Nat
  closing : Bool
deriving DecidableEq

/-- The pool as created: all initial clients idle, no waiters, not closing. -/
def initPool (initialClients : List Nat) : PoolState :=
  { idle := initialClients, waiters := [], allClients := initialClients, closing := false }

/-- One observable transition of the pool: `acquire`, `release`, a
replacement arrival, a keep-alive eviction, the keep-alive rotation
interval, or `close`.  `idle.pop()` removes the last element; `idle.push`
and `waiters.push` append; `waiters.shift()` removes the head. -/
inductive PoolStep : PoolState → PoolState → Prop where
  | acquireIdle (s : PoolState) (c : Nat) (rest : List Nat) :
      s.closing = false → s.idle = rest ++ [c] →
      PoolStep s { s with idle := rest }
  | acquireWait (s : PoolState) (w : Nat) :
      s.closing = false → s.idle = [] →
      PoolStep s { s with waiters := s.waiters ++ [w] }
  | releaseDrop (s : PoolState) (c : Nat) :
      PoolStep s { s with allClients := s.allClients.erase c }
  | releaseToWaiter (s : PoolState) (c w : Nat) (rest : List Nat) :
      s.waiters = w :: rest →
      PoolStep s { s with waiters := rest }
  | releaseIdle (s : PoolState) (c : Nat) :
      s.waiters = [] →
      PoolStep s { s with idle := s.idle ++ [c] }
  | replacementToWaiter (s : PoolState) (c w : Nat) (rest : List Nat) :
      s.waiters = w :: rest →
      PoolStep s { s with allClients := s.allClients ++ [c], waiters := rest }
  | replacementToIdle (s : PoolState) (c : Nat) :
      s.waiters = [] →
      PoolStep s { s with allClients := s.allClients ++ [c], idle := s.idle ++ [c] }
  | keepAliveEvict (s : PoolState) (c : Nat) :
      PoolStep s { s with idle := s.idle.erase c, allClients := s.allClients.erase c }
  | keepAliveRotate (s : PoolState) (c : Nat) (rest : List Nat) :
      s.closing = false → s.waiters = [] → s.idle = rest ++ [c] →
      PoolStep s { s with idle := rest, allClients := s.allClients.erase c }
  | close (s : PoolState) :
      PoolStep s { idle := [], waiters := [], allClients := [], closing := true }

/-- The states reachable from a freshly created pool. -/
inductive PoolReachable : PoolState → Prop where
  | init (initialClients : List Nat) : PoolReachable (initPool initialClients)
  | step {s t : PoolState} : PoolReachable s → PoolStep s t → PoolReachable t

/-- Claim C9: in every reachable pool state, a non-empty waiter queue forces
an empty idle list. -/
theorem pool_waiters_imp_idle_empty (s : PoolState) (hr : PoolReachable s) :
    s.waiters ≠ [] → s.idle = [] := by
  induction hr with
  | init initialClients => intro hw; exact absurd rfl hw
  | step hr hs ih =>
    cases hs with
    | acquireIdle c rest hc hidle =>
      intro hw
      simp only at hw ⊢
      have := ih hw
      rw [this] at hidle
      exact absurd hidle.symm (by simp)
    | acquireWait w hc hidle =>
      intro _
      exact hidle
    | releaseDrop c =>
      intro hw
      exact ih hw
    | releaseToWaiter c w rest hwq =>
      intro hw
      simp only at hw ⊢
      exact ih (by rw [hwq]; simp)
    | releaseIdle c hwq =>
      intro hw
      exact absurd hwq hw
    | replacementToWaiter c w rest hwq =>
      intro hw
      simp only at hw ⊢
      exact ih (by rw [hwq]; simp)
    | replacementToIdle c hwq =>
      intro hw
      exact absurd hwq hw
    | keepAliveEvict c =>
      intro hw
      simp only at hw ⊢
      rw [ih hw]
      rfl
    | keepAliveRotate c rest hc hwq hidle =>
      intro hw
      exact absurd hwq hw
    | close =>
      intro _
      rfl

/-- Witness for claim C9: from a pool with one client, acquire it, then let a
second acquire enqueue waiter `7`; the reached state has a waiter, and the
theorem yields an empty idle list. -/
theorem pool_waiters_imp_idle_empty_witness :
    ({ idle := [], waiters := [7], allClients := [0], closing := false } : PoolState).waiters
        ≠ [] ∧
    ({ idle := [], waiters := [7], allClients := [0], closing := false } : PoolState).idle
        = [] := by
  have h1 : PoolReachable (initPool [0]) := PoolReachable.init [0]
  have h2 : PoolReachable ({ idle := [], waiters := [], allClients := [0], closing := false }
      : PoolState) := by
    have := PoolReachable.step h1
      (PoolStep.acquireIdle (initPool [0]) 0 [] rfl rfl)
    simpa [initPool] using this
  have h3 : PoolReachable ({ idle := [], waiters := [7], allClients := [0], closing := false }
      : PoolState) := by
    have := PoolReachable.step h2
      (PoolStep.acquireWait { idle := [], waiters := [], allClients := [0], closing := false }
        7 rfl rfl)
    simpa using this
  exact ⟨by simp, pool_waiters_imp_idle_empty _ h3 (by simp)⟩

/-! ### Runner: candidates and ranking (`nzbTriageRunner.js`) -/

/-- JavaScript string trim over the whitespace the inputs can contain. -/
def isWhiteN (c : Nat) : Bool :=
  c = 9 || c = 10 || c = 11 || c = 12 || c = 13 || c = 32 || c = 160

/-- `s.trim()`. -/
def trimStr (s : JsStr) : JsStr :=
  ((s.dropWhile isWhiteN).reverse.dropWhile isWhiteN).reverse

/-- `normalizeTitle`: empty for a missing title, else trim + lowercase. -/
def normalizeTitle (title : Option JsStr) : JsStr :=
  match title with
  | none => []
  | some t => lowerStr (trimStr t)

/-- Insertion-ordered deduplication, the observable content of a JS `Set`. -/
def dedupAux {α : Type} [DecidableEq α] (seen : List α) : List α → List α
  | [] => []
  | a :: rest => if a ∈ seen then dedupAux seen rest else a :: dedupAux (a :: seen) rest

/-- `normalizeIndexerSet`: lowercased trimmed entries, empties dropped,
deduplicated; `[]` when the option is not an array. -/
def normalizeIndexerSet (indexers : Option (List JsStr)) : List JsStr :=
  match indexers with
  | none => []
  | some l => dedupAux [] ((l.map fun e => lowerStr (trimStr e)).filter (fun e => e ≠ []))

/-- One raw entry of `nzbResults` (the fields `buildCandidates` reads).
`size = none` stands for a missing or non-finite size. -/
structure NzbResult where
  downloadUrl : Option JsStr
  title : Option JsStr
  size : Option Int
  indexerId : Option JsStr
  indexerName : Option JsStr
deriving DecidableEq

/-- A candidate as built by `buildCandidates` (the raw `result` back-pointer
is represented by `index`, its position in `nzbResults`). -/
structure Candidate where
  index : Nat
  size : Int
  indexerId : Option JsStr
  indexerName : Option JsStr
  downloadUrl : JsStr
  title : Option JsStr
  normalizedTitle : JsStr
deriving DecidableEq

/-- `buildCandidates`: walk `nzbResults`, drop entries without `downloadUrl`,
deduplicate by `downloadUrl`, and normalize the kept fields. -/
def buildCandidatesAux (seen : List JsStr) (index : Nat) : List NzbResult → List Candidate
  | [] => []
  | r :: rest =>
    match r.downloadUrl with
    | none => buildCandidatesAux seen (index + 1) rest
    | some url =>
      if url = [] ∨ url ∈ seen then buildCandidatesAux seen (index + 1) rest
      else
        { index := index
          size := r.size.getD 0
          indexerId := r.indexerId
          indexerName := r.indexerName
          downloadUrl := url
          title := r.title
          normalizedTitle := normalizeTitle r.title } ::
        buildCandidatesAux (url :: seen) (index + 1) rest

def buildCandidates (nzbResults : List NzbResult) : List Candidate :=
  buildCandidatesAux [] 0 nzbResults

/-- Is the candidate preferred (`indexerId` or `indexerName`, lowercased,
in the preferred set)?  Empty strings are falsy and skipped. -/
def isPreferred (pset : List JsStr) (c : Candidate) : Bool :=
  (match c.indexerId with
   | some s => if s = [] then false else pset.contains (lowerStr s)
   | none => false) ||
  (match c.indexerName with
   | some s => if s = [] then false else pset.contains (lowerStr s)
   | none => false)

/-- The sort comparator of `rankCandidates`; negative means `a` ranks before
`b`.  With a finite `preferredSizeBytes` it is ascending `|size − preferred|`
with descending `size` as tiebreak, otherwise descending `size`. -/
def cmpCandidates (preferredSizeBytes : Option Int) (a b : Candidate) : Int :=
  match preferredSizeBytes with
  | some p =>
    if |a.size - p| ≠ |b.size - p| then |a.size - p| - |b.size - p| else b.size - a.size
  | none => b.size - a.size

/-- The comparator as a binary relation (`comparator(a, b) <= 0`). -/
def rankLe (p : Option Int) (a b : Candidate) : Prop := cmpCandidates p a b ≤ 0

instance (p : Option Int) : DecidableRel (rankLe p) := by
  unfold rankLe
  infer_instance

/-- `rankCandidates`: partition into preferred and fallback (the whole list
falls back when the preferred set is empty), sort each partition with the
comparator, and concatenate preferred first.  `Array.prototype.sort` is
stable, modelled by the stable `List.insertionSort`. -/
def rankCandidates (cands : List Candidate) (p : Option Int) (pset : List JsStr) :
    List Candidate :=
  let prioritized := if pset ≠ [] then cands.filter (fun c => isPreferred pset c) else []
  let fallback :=
    if pset ≠ [] then cands.filter (fun c => ! isPreferred pset c) else cands
  (prioritized.insertionSort (rankLe p)) ++ (fallback.insertionSort (rankLe p))

/-- The claim's strict ranking order inside one partition. -/
def claimKeyLT (p : Option Int) (a b : Candidate) : Prop :=
  match p with
  | some P => |a.size - P| < |b.size - P| ∨ (|a.size - P| = |b.size - P| ∧ b.size < a.size)
  | none => b.size < a.size

/-- The claim's ranking-key equality inside one partition. -/
def claimKeyEq (p : Option Int) (a b : Candidate) : Prop :=
  match p with
  | some P => |a.size - P| = |b.size - P| ∧ a.size = b.size
  | none => a.size = b.size

/-- The claimed order of the ranked output: preferred strictly before
non-preferred, and within a partition the key order with input order
(`index`) breaking key ties. -/
def rankRel (p : Option Int) (pset : List JsStr) (a b : Candidate) : Prop :=
  (isPreferred pset a = true ∧ isPreferred pset b = false) ∨
  (isPreferred pset a = isPreferred pset b ∧
    (claimKeyLT p a b ∨ (claimKeyEq p a b ∧ a.index < b.index)))

instance (p : Option Int) (a b : Candidate) : Decidable (claimKeyLT p a b) := by
  unfold claimKeyLT
  cases p <;> infer_instance

instance (p : Option Int) (a b : Candidate) : Decidable (claimKeyEq p a b) := by
  unfold claimKeyEq
  cases p <;> infer_instance

instance (p : Option Int) (pset : List JsStr) (a b : Candidate) :
    Decidable (rankRel p pset a b) := by
  unfold rankRel
  infer_instance

theorem cmp_total (p : Option Int) (a b : Candidate) :
    cmpCandidates p a b ≤ 0 ∨ cmpCandidates p b a ≤ 0 := by
  cases p <;> simp only [cmpCandidates] <;> first | (split_ifs <;> omega) | omega

theorem cmp_trans (p : Option Int) (a b c : Candidate) :
    cmpCandidates p a b ≤ 0 → cmpCandidates p b c ≤ 0 → cmpCandidates p a c ≤ 0 := by
  cases p <;> simp only [cmpCandidates] <;> first | (split_ifs <;> omega) | omega

theorem cmp_lt_iff (p : Option Int) (a b : Candidate) :
    cmpCandidates p a b < 0 ↔ claimKeyLT p a b := by
  cases p <;> simp only [cmpCandidates, claimKeyLT] <;> first | (split_ifs <;> omega) | omega

theorem cmp_eq_iff (p : Option Int) (a b : Candidate) :
    cmpCandidates p a b = 0 ↔ claimKeyEq p a b := by
  cases p <;> simp only [cmpCandidates, claimKeyEq] <;> first | (split_ifs <;> omega) | omega

theorem claimKeyEq_symm (p : Option Int) (a b : Candidate) :
    claimKeyEq p a b → claimKeyEq p b a := by
  cases p <;> simp only [claimKeyEq] <;> omega

theorem sublist_pair_of_mem {α : Type} {l : List α} {a b : α}
    (ha : a ∈ l) (hb : b ∈ l) (hne : a ≠ b) :
    List.Sublist [a, b] l ∨ List.Sublist [b, a] l := by
  induction l with
  | nil => cases ha
  | cons x t ih =>
    rcases List.mem_cons.mp ha with hax | hat
    · subst hax
      have hbt : b ∈ t := by
        rcases List.mem_cons.mp hb with hbx | hbt
        · exact absurd hbx.symm hne
        · exact hbt
      exact Or.inl (List.Sublist.cons₂ _ (List.singleton_sublist.mpr hbt))
    · rcases List.mem_cons.mp hb with hbx | hbt
      · subst hbx
        exact Or.inr (List.Sublist.cons₂ _ (List.singleton_sublist.mpr hat))
      · rcases ih hat hbt with h | h
        · exact Or.inl (h.cons _)
        · exact Or.inr (h.cons _)

theorem not_pair_sublist_both {α : Type} {l : List α} {a b : α}
    (hnd : l.Nodup) (hne : a ≠ b) (h1 : List.Sublist [a, b] l)
    (h2 : List.Sublist [b, a] l) : False := by
  induction l with
  | nil => cases h1
  | cons x t ih =>
    cases h1 with
    | cons _ h1t =>
      cases h2 with
      | cons _ h2t => exact ih (List.nodup_cons.mp hnd).2 h1t h2t
      | cons₂ _ h2t =>
        have hbt : b ∈ t := h1t.subset (by simp)
        exact (List.nodup_cons.mp hnd).1 hbt
    | cons₂ _ h1t =>
      cases h2 with
      | cons _ h2t =>
        have hat : a ∈ t := h2t.subset (by simp)
        exact (List.nodup_cons.mp hnd).1 hat
      | cons₂ _ h2t => exact hne rfl

theorem insertionSort_pairwise_stable (p : Option Int) {l : List Candidate}
    (hidx : l.Pairwise (fun a b => a.index < b.index)) :
    (l.insertionSort (rankLe p)).Pairwise
      (fun a b => claimKeyLT p a b ∨ (claimKeyEq p a b ∧ a.index < b.index)) := by
  have hnd : l.Nodup :=
    List.Pairwise.imp (fun h heq => by rw [heq] at h; omega) hidx
  have hperm : List.Perm (l.insertionSort (rankLe p)) l := List.perm_insertionSort _ _
  have hond : (l.insertionSort (rankLe p)).Nodup := hperm.nodup_iff.mpr hnd
  have hsorted : (l.insertionSort (rankLe p)).Pairwise (rankLe p) := by
    letI : IsTotal Candidate (rankLe p) := ⟨fun a b => cmp_total p a b⟩
    letI : IsTrans Candidate (rankLe p) := ⟨fun a b c => cmp_trans p a b c⟩
    exact List.sorted_insertionSort _ _
  rw [List.pairwise_iff_forall_sublist]
  intro a b hs
  have hle : rankLe p a b := (List.pairwise_iff_forall_sublist.mp hsorted) hs
  rcases lt_or_eq_of_le hle with hlt | heq0
  · exact Or.inl ((cmp_lt_iff p a b).mp hlt)
  · have hkeq := (cmp_eq_iff p a b).mp heq0
    refine Or.inr ⟨hkeq, ?_⟩
    by_contra hnidx
    push_neg at hnidx
    have hne : a ≠ b := by
      intro heq
      subst heq
      have := hond.sublist hs
      simp at this
    have ha : a ∈ l := hperm.subset (hs.subset (by simp))
    have hb : b ∈ l := hperm.subset (hs.subset (by simp))
    rcases sublist_pair_of_mem ha hb hne with hab | hba
    · have := (List.pairwise_iff_forall_sublist.mp hidx) hab
      omega
    · have hba0 : cmpCandidates p b a = 0 :=
        (cmp_eq_iff p b a).mpr (claimKeyEq_symm p a b hkeq)
      have hle2 : rankLe p b a := by
        unfold rankLe
        omega
      have hsub2 : List.Sublist [b, a] (l.insertionSort (rankLe p)) :=
        List.pair_sublist_insertionSort hle2 hba
      exact not_pair_sublist_both hond (Ne.symm hne) hsub2 hs

theorem isPreferred_nil (c : Candidate) : isPreferred [] c = false := by
  unfold isPreferred
  cases c.indexerId <;> cases c.indexerName <;> simp [List.contains]

/-- Claim C7: the ranked output is a permutation of the candidates in which
every preferred-indexer candidate precedes every non-preferred one; within a
partition the order is ascending `|size − preferredSizeBytes|` with
descending size as tiebreak when `preferredSizeBytes` is finite, descending
size otherwise; and key-equal candidates retain their input order.  Input
order is expressed by strictly increasing `index` fields. -/
theorem rankCandidates_spec (cands : List Candidate) (p : Option Int) (pset : List JsStr)
    (hidx : cands.Pairwise (fun a b => a.index < b.index)) :
    List.Perm (rankCandidates cands p pset) cands ∧
    (rankCandidates cands p pset).Pairwise (rankRel p pset) := by
  unfold rankCandidates
  by_cases hps : pset ≠ []
  · simp only [if_pos hps]
    constructor
    · refine List.Perm.trans
        (List.Perm.append (List.perm_insertionSort _ _) (List.perm_insertionSort _ _)) ?_
      exact List.filter_append_perm _ cands
    · rw [List.pairwise_append]
      refine ⟨?_, ?_, ?_⟩
      · refine List.Pairwise.imp_of_mem ?_
          (insertionSort_pairwise_stable p (hidx.filter _))
        intro a b ha hb hr
        have hpa : isPreferred pset a = true :=
          (List.mem_filter.mp ((List.mem_insertionSort _).mp ha)).2
        have hpb : isPreferred pset b = true :=
          (List.mem_filter.mp ((List.mem_insertionSort _).mp hb)).2
        exact Or.inr ⟨by rw [hpa, hpb], hr⟩
      · refine List.Pairwise.imp_of_mem ?_
          (insertionSort_pairwise_stable p (hidx.filter _))
        intro a b ha hb hr
        have hpa : isPreferred pset a = false := by
          have := (List.mem_filter.mp ((List.mem_insertionSort _).mp ha)).2
          simpa using this
        have hpb : isPreferred pset b = false := by
          have := (List.mem_filter.mp ((List.mem_insertionSort _).mp hb)).2
          simpa using this
        exact Or.inr ⟨by rw [hpa, hpb], hr⟩
      · intro a ha b hb
        have hpa : isPreferred pset a = true :=
          (List.mem_filter.mp ((List.mem_insertionSort _).mp ha)).2
        have hpb : isPreferred pset b = false := by
          have := (List.mem_filter.mp ((List.mem_insertionSort _).mp hb)).2
          simpa using this
        exact Or.inl ⟨hpa, hpb⟩
  · push_neg at hps
    subst hps
    simp only [ne_eq, not_true_eq_false, if_neg, List.insertionSort, List.nil_append]
    constructor
    · exact List.perm_insertionSort _ _
    · refine List.Pairwise.imp_of_mem ?_ (insertionSort_pairwise_stable p hidx)
      intro a b _ _ hr
      exact Or.inr ⟨by rw [isPreferred_nil, isPreferred_nil], hr⟩

/-- The spec's ranking scenario 3: sizes 900, 1050 and 2000 at positions
0, 1 and 2, with no preferred indexers. -/
def rankScenarioCandidates : List Candidate :=
  [{ index := 0, size := 900, indexerId := none, indexerName := none,
     downloadUrl := [97], title := none, normalizedTitle := [] },
   { index := 1, size := 1050, indexerId := none, indexerName := none,
     downloadUrl := [98], title := none, normalizedTitle := [] },
   { index := 2, size := 2000, indexerId := none, indexerName := none,
     downloadUrl := [99], title := none, normalizedTitle := [] }]

/-- Witness for claim C7 at the spec's scenario 3 with
`preferredSizeBytes = 1000`. -/
theorem rankCandidates_spec_witness :
    List.Perm (rankCandidates rankScenarioCandidates (some 1000) [])
      rankScenarioCandidates ∧
    (rankCandidates rankScenarioCandidates (some 1000) []).Pairwise
      (rankRel (some 1000) []) :=
  rankCandidates_spec rankScenarioCandidates (some 1000) [] (by decide)

/-! ### Triage analyzer (`analyzeSingleNzb` and helpers)

The NZB is taken post-parse (`files`, `title`); NNTP probes, local archive
inspection and the Fisher–Yates shuffles are oracle fields of `TriageEnv`.
`Promise.all` over the sampled STAT checks runs each arrow's synchronous
prefix (the checked-set guard and insertion) in array order before any await
resolves, so the sequential folds below are faithful to the checked-set and
probe-count semantics; only the completion order of the pushed findings can
differ, which no modelled claim observes. -/

/-- One `{number, bytes, id}` segment record (`id = []` when missing). -/
structure Segment where
  number : Int
  bytes : Int
  id : JsStr
deriving DecidableEq

/-- One parsed NZB file record. -/
structure NzbFile where
  subject : JsStr
  filename : Option JsStr
  extension : Option JsStr
  segments : List Segment
deriving DecidableEq

/-- The suffix of `f` from its last dot, inclusive. -/
def extFromLastDot (f : JsStr) : JsStr :=
  ((f.reverse.takeWhile (fun c => c ≠ 46)) ++ [46]).reverse

/-- `getExtension(filename)`: lowercased suffix from the last dot. -/
def getExtension (filename : Option JsStr) : Option JsStr :=
  match filename with
  | none => none
  | some f =>
    if f = [] then none
    else if 46 ∈ f then some (lowerStr (extFromLastDot f))
    else none

def ARCHIVE_EXTENSIONS : List JsStr :=
  [strUnits ".rar", strUnits ".r00", strUnits ".r01", strUnits ".r02", strUnits ".7z"]

/-- Full match of `/^\.r\d{2}$/i`. -/
def matchesRxx (e : JsStr) : Bool :=
  decide (e.length = 4) && (e.getD 0 0 == 46) && (e.getD 1 0 == 114 || e.getD 1 0 == 82) &&
  isDigitN (e.getD 2 0) && isDigitN (e.getD 3 0)

/-- `isArchiveFile`. -/
def isArchiveFile (file : NzbFile) : Bool :=
  match file.extension.orElse (fun _ => getExtension file.filename) with
  | none => false
  | some e => if e = [] then false else ARCHIVE_EXTENSIONS.contains e || matchesRxx e

/-- `dedupeArchiveCandidates`: keep the first file per canonical archive key. -/
def dedupeArchiveCandidatesAux (seen : List JsStr) : List NzbFile → List NzbFile
  | [] => []
  | a :: rest =>
    match canonicalArchiveKey (a.filename.getD a.subject) with
    | none => dedupeArchiveCandidatesAux seen rest
    | some key =>
      if key ∈ seen then dedupeArchiveCandidatesAux seen rest
      else a :: dedupeArchiveCandidatesAux (key :: seen) rest

def dedupeArchiveCandidates (archives : List NzbFile) : List NzbFile :=
  dedupeArchiveCandidatesAux [] archives

/-- `collectUniqueSegments`: all `(file, segmentId)` pairs, first occurrence
of each non-empty id. -/
def collectUniqueSegmentsAux : List NzbFile → List JsStr → List (NzbFile × JsStr)
  | [], _ => []
  | f :: rest, seen =>
    let step := f.segments.foldl
      (fun (acc : List (NzbFile × JsStr) × List JsStr) seg =>
        if seg.id = [] ∨ seg.id ∈ acc.2 then acc
        else (acc.1 ++ [(f, seg.id)], seg.id :: acc.2))
      ([], seen)
    step.1 ++ collectUniqueSegmentsAux rest step.2

def collectUniqueSegments (files : List NzbFile) : List (NzbFile × JsStr) :=
  collectUniqueSegmentsAux files []

/-- `pickRandomElements(items, maxCount)`: Fisher–Yates shuffle (the oracle
`shuffle`) then take `min maxCount items.length`. -/
def pickRandomElements {α : Type} [DecidableEq α] (shuffle : List α → List α) (items : List α)
    (maxCount : Nat) : List α :=
  if items = [] then [] else (shuffle items).take (min maxCount items.length)

/-- Insertion into a JS `Set` (insertion-ordered, duplicate-free). -/
def addFlag (l : List String) (x : String) : List String :=
  if x ∈ l then l else l ++ [x]

/-- `handleArchiveStatus(status, blockers, warnings)`: returns whether the
status confirms a stored archive, plus the updated flag sets. -/
def handleArchiveStatus (status : String) (blockers warnings : List String) :
    Bool × List String × List String :=
  if status = "rar-stored" ∨ status = "sevenzip-stored" then (true, blockers, warnings)
  else if status = "rar-compressed" ∨ status = "rar-encrypted" ∨ status = "rar-solid" ∨
      status = "rar5-unsupported" ∨ status = "sevenzip-unsupported" then
    (false, addFlag blockers status, warnings)
  else if status = "stat-missing" ∨ status = "body-missing" then
    (false, addFlag blockers "missing-articles", warnings)
  else if status ∈ ["archive-not-found", "archive-no-segments", "rar-insufficient-data",
      "rar-header-not-found", "io-error", "stat-error", "body-error", "decode-error",
      "missing-filename"] then
    (false, blockers, addFlag warnings status)
  else (false, blockers, warnings)

/-- One archive finding (`details` reduced to the segment id / path). -/
structure Finding where
  source : String
  filename : Option JsStr
  subject : JsStr
  status : String
  segmentId : Option JsStr
  path : Option JsStr
deriving DecidableEq

/-- The per-NZB decision record. -/
structure NzbDecision where
  decision : String
  blockers : List String
  warnings : List String
  fileCount : Nat
  nzbTitle : Option JsStr
  nzbIndex : Nat
  archiveFindings : List Finding
deriving DecidableEq

/-- `buildDecision`. -/
def buildDecision (decision : String) (blockers warnings : List String)
    (fileCount : Nat) (nzbTitle : Option JsStr) (nzbIndex : Nat)
    (archiveFindings : List Finding) : NzbDecision :=
  ⟨decision, blockers, warnings, fileCount, nzbTitle, nzbIndex, archiveFindings⟩

/-- JavaScript truthiness of an error `code`. -/
def jsCodeTruthy : Option JsCode → Bool
  | some (.str s) => s ≠ ""
  | some (.num n) => n ≠ 0
  | none => false

/-- Render a `code` value into a flag string. -/
def codeStr : JsCode → String
  | .str s => s
  | .num n => toString n

/-- Render raw code units into a Lean string (for warning flags). -/
def unitsStr (l : JsStr) : String := String.mk (l.map Char.ofNat)

/-- `buildErrorDecision(err, nzbIndex)`. -/
def buildErrorDecision (err : JsError) (nzbIndex : Nat) : NzbDecision :=
  let blockers : List String := addFlag [] "analysis-error"
  let warnings : List String := []
  let warnings :=
    if jsCodeTruthy err.code then
      addFlag warnings ("code:" ++ codeStr (err.code.getD (.num 0)))
    else warnings
  let warnings := if err.message ≠ [] then addFlag warnings (unitsStr err.message) else warnings
  let warnings := if warnings = [] then addFlag [] "analysis-failed" else warnings
  buildDecision "reject" blockers warnings 0 none nzbIndex []

/-- The oracle bundle for one `analyzeSingleNzb` run. -/
structure TriageEnv where
  stat : JsStr → Option JsError
  localInspect : NzbFile → String × Option JsStr
  nntpStatus : JsStr → String
  shuffleSeg : List Segment → List Segment
  shuffleFiles : List NzbFile → List NzbFile
  shufflePairs : List (NzbFile × JsStr) → List (NzbFile × JsStr)

/-- The configuration fields `analyzeSingleNzb` reads. -/
structure TriageConfig where
  archiveDirs : List JsStr
  poolAvailable : Bool
  nntpError : Option JsError
  statSampleCount : Option Int
  archiveSampleCount : Option Int

/-- The mutable analysis state threaded through one NZB. -/
structure AnalyzeSt where
  blockers : List String
  warnings : List String
  findings : List Finding
  checked : List JsStr
deriving DecidableEq

/-- `err.code === 'STAT_MISSING' || err.code === 430`. -/
def isStatMissingCode (e : JsError) : Bool :=
  e.code == some (.str "STAT_MISSING") || e.code == some (.num 430)

/-- The warning for a missing pool: `nntp-error:<code ?? message>` or
`nntp-disabled`. -/
def nntpUnavailableWarning (cfg : TriageConfig) : String :=
  match cfg.nntpError with
  | some e =>
    "nntp-error:" ++ (match e.code with | some c => codeStr c | none => unitsStr e.message)
  | none => "nntp-disabled"

/-- `runStatCheck(archive, segment)`: skip empty or already-checked ids,
else record the id and classify the STAT outcome. -/
def runStatCheck (env : TriageEnv) (archive : NzbFile) (segment : Segment)
    (st : AnalyzeSt) : AnalyzeSt :=
  if segment.id = [] ∨ segment.id ∈ st.checked then st
  else
    let st := { st with checked := st.checked ++ [segment.id] }
    match env.stat segment.id with
    | none =>
      { st with findings := st.findings ++
        [⟨"nntp-stat", archive.filename, archive.subject, "segment-ok", some segment.id, none⟩] }
    | some err =>
      if isStatMissingCode err then
        { st with
          blockers := addFlag st.blockers "missing-articles",
          findings := st.findings ++
            [⟨"nntp-stat", archive.filename, archive.subject, "segment-missing",
              some segment.id, none⟩] }
      else
        { st with
          warnings := addFlag st.warnings "nntp-stat-error",
          findings := st.findings ++
            [⟨"nntp-stat", archive.filename, archive.subject, "segment-error",
              some segment.id, none⟩] }

/-- The direct STAT probe of the no-archive-candidates branch (no
checked-set guard; `collectUniqueSegments` already deduplicated). -/
def statPairCheck (env : TriageEnv) (p : NzbFile × JsStr) (st : AnalyzeSt) : AnalyzeSt :=
  match env.stat p.2 with
  | none =>
    { st with findings := st.findings ++
      [⟨"nntp-stat", p.1.filename, p.1.subject, "segment-ok", some p.2, none⟩] }
  | some err =>
    if isStatMissingCode err then
      { st with
        blockers := addFlag st.blockers "missing-articles",
        findings := st.findings ++
          [⟨"nntp-stat", p.1.filename, p.1.subject, "segment-missing", some p.2, none⟩] }
    else
      { st with
        warnings := addFlag st.warnings "nntp-stat-error",
        findings := st.findings ++
          [⟨"nntp-stat", p.1.filename, p.1.subject, "segment-error", some p.2, none⟩] }

/-- `inspectArchiveViaNntp`: no (first) segment id means
`archive-no-segments`; otherwise the STAT/BODY/decode/inspect chain on the
first segment, collapsed into the `nntpStatus` oracle. -/
def inspectArchiveViaNntpModel (env : TriageEnv) (file : NzbFile) : String × Option JsStr :=
  match file.segments with
  | [] => ("archive-no-segments", none)
  | seg0 :: _ =>
    if seg0.id = [] then ("archive-no-segments", none)
    else (env.nntpStatus seg0.id, some seg0.id)

/-- First half of the analyzer's step 6: sample
`min(extraStatChecks, remaining)` of the primary archive's unchecked
segments and STAT them (`extraStatChecks = max(0, floor(statSampleCount))`).
-/
def extraPrimaryStat (env : TriageEnv) (cfg : TriageConfig)
    (primaryArchive : Option NzbFile) (st : AnalyzeSt) : AnalyzeSt :=
  let extraStatChecks := (max 0 (cfg.statSampleCount.getD 0)).toNat
  match primaryArchive with
  | some primary =>
    if extraStatChecks > 0 ∧ primary.segments ≠ [] then
      let available := primary.segments.filter
        (fun seg => seg.id ≠ [] ∧ seg.id ∉ st.checked)
      let primarySamples := pickRandomElements env.shuffleSeg available
        (min extraStatChecks available.length)
      primarySamples.foldl (fun st seg => runStatCheck env primary seg st) st
    else st
  | none => st

/-- Second half of the analyzer's step 6: STAT the first unchecked segment
of up to `max(1, floor(archiveSampleCount))` other archive candidates that
have segments. -/
def extraArchiveStat (env : TriageEnv) (cfg : TriageConfig)
    (archiveCandidates : List NzbFile) (primaryArchive : Option NzbFile)
    (st : AnalyzeSt) : AnalyzeSt :=
  let archivesWithSegments := archiveCandidates.filter
    (fun a => a.segments.length > 0 ∧ primaryArchive ≠ some a)
  let archiveSampleCount := (max 1 (cfg.archiveSampleCount.getD 1)).toNat
  let sampleArchives := pickRandomElements env.shuffleFiles
    (archivesWithSegments.filter (fun a =>
      match a.segments.head? with
      | some seg0 => seg0.id ≠ [] ∧ seg0.id ∉ st.checked
      | none => false))
    archiveSampleCount
  sampleArchives.foldl
    (fun st archive =>
      match archive.segments.find? (fun seg => seg.id ≠ [] ∧ seg.id ∉ st.checked) with
      | some seg => runStatCheck env archive seg st
      | none => st)
    st

/-- Step 6 of the analyzer: extra STAT sampling over the primary archive's
remaining unchecked segments, then over other archive candidates. -/
def extraStatPhase (env : TriageEnv) (cfg : TriageConfig)
    (archiveCandidates : List NzbFile) (primaryArchive : Option NzbFile)
    (st : AnalyzeSt) : AnalyzeSt :=
  extraArchiveStat env cfg archiveCandidates primaryArchive
    (extraPrimaryStat env cfg primaryArchive st)

/-- The no-archive-candidates branch of `analyzeSingleNzb` (step 2 of the
analyzer): sample unique segments across all files. -/
def analyzeNoArchive (files : List NzbFile) (title : Option JsStr) (nzbIndex : Nat)
    (cfg : TriageConfig) (env : TriageEnv) : NzbDecision :=
    let st0 : AnalyzeSt := ⟨[], addFlag [] "no-archive-candidates", [], []⟩
    let uniqueSegments := collectUniqueSegments files
    let st :=
      if ¬ cfg.poolAvailable then
        { st0 with warnings := addFlag st0.warnings (nntpUnavailableWarning cfg) }
      else if uniqueSegments ≠ [] then
        let statSampleCount := (max 1 (cfg.statSampleCount.getD 1)).toNat
        let sampled := pickRandomElements env.shufflePairs uniqueSegments statSampleCount
        sampled.foldl (fun st p => statPairCheck env p st) st0
      else st0
    buildDecision (if st.blockers = [] then "accept" else "reject") st.blockers st.warnings
      files.length title nzbIndex st.findings

/-- The archive-candidates branch of `analyzeSingleNzb` (steps 3-7 of the
analyzer): local inspection, remote inspection of the primary archive,
extra stat sampling, and the `rar-m0-unverified` warning. -/
def analyzeWithArchive (files : List NzbFile) (archiveCandidates : List NzbFile)
    (title : Option JsStr) (nzbIndex : Nat) (cfg : TriageConfig) (env : TriageEnv) :
    NzbDecision :=
    let st0 : AnalyzeSt := ⟨[], [], [], []⟩
    let local0 :=
      if cfg.archiveDirs ≠ [] then
        archiveCandidates.foldl
          (fun (acc : AnalyzeSt × Bool) archive =>
            let res := env.localInspect archive
            let stf := { acc.1 with findings := acc.1.findings ++
              [(⟨"local", archive.filename, archive.subject, res.1, none, res.2⟩ : Finding)] }
            let cls := handleArchiveStatus res.1 stf.blockers stf.warnings
            ({ stf with blockers := cls.2.1, warnings := cls.2.2 }, acc.2 || cls.1))
          (st0, false)
      else (st0, false)
    let nntp0 :=
      if ¬ cfg.poolAvailable then
        (({ local0.1 with warnings := addFlag local0.1.warnings (nntpUnavailableWarning cfg) }
          : AnalyzeSt), local0.2, (none : Option NzbFile))
      else
        match archiveCandidates.find? (fun c => c.segments.length > 0) with
        | some aws =>
          let res := inspectArchiveViaNntpModel env aws
          let stf := { local0.1 with findings := local0.1.findings ++
            [(⟨"nntp", aws.filename, aws.subject, res.1, res.2, none⟩ : Finding)] }
          let stf :=
            match res.2 with
            | some sid =>
              let stc := { stf with checked := stf.checked ++ [sid] }
              if res.1 = "rar-stored" ∨ res.1 = "sevenzip-stored" then
                { stc with findings := stc.findings ++
                  [(⟨"nntp-stat", aws.filename, aws.subject, "segment-ok", some sid, none⟩
                    : Finding)] }
              else stc
            | none => stf
          let cls := handleArchiveStatus res.1 stf.blockers stf.warnings
          (({ stf with blockers := cls.2.1, warnings := cls.2.2 } : AnalyzeSt),
            local0.2 || cls.1, some aws)
        | none =>
          (({ local0.1 with warnings := addFlag local0.1.warnings "archive-no-segments" }
            : AnalyzeSt), local0.2, (none : Option NzbFile))
    let st3 :=
      if cfg.poolAvailable ∧ nntp0.2.1 = true ∧ nntp0.1.blockers = [] then
        extraStatPhase env cfg archiveCandidates nntp0.2.2 nntp0.1
      else nntp0.1
    let st4 :=
      if nntp0.2.1 = false ∧ st3.blockers = [] then
        { st3 with warnings := addFlag st3.warnings "rar-m0-unverified" }
      else st3
    buildDecision (if st4.blockers = [] then "accept" else "reject") st4.blockers st4.warnings
      files.length title nzbIndex st4.findings

/-- One full `analyzeSingleNzb` run: the archive-candidate set decides
between the no-archive branch and the archive branch. -/
def analyzeSingleNzb (files : List NzbFile) (title : Option JsStr) (nzbIndex : Nat)
    (cfg : TriageConfig) (env : TriageEnv) : NzbDecision :=
  if dedupeArchiveCandidates (files.filter isArchiveFile) = [] then
    analyzeNoArchive files title nzbIndex cfg env
  else
    analyzeWithArchive files (dedupeArchiveCandidates (files.filter isArchiveFile))
      title nzbIndex cfg env

/-- The `analyzeWithConcurrency` per-NZB wrapper: a thrown analysis (e.g. a
parse failure) becomes `buildErrorDecision`. -/
def analyzeNzbOutcome (parseResult : Except JsError (List NzbFile × Option JsStr))
    (nzbIndex : Nat) (cfg : TriageConfig) (env : TriageEnv) : NzbDecision :=
  match parseResult with
  | .ok fs => analyzeSingleNzb fs.1 fs.2 nzbIndex cfg env
  | .error e => buildErrorDecision e nzbIndex

theorem buildDecision_accept_iff (B W : List String) (fc : Nat) (t : Option JsStr)
    (i : Nat) (fnd : List Finding) :
    ((buildDecision (if B = [] then "accept" else "reject") B W fc t i fnd).decision
        = "accept" ↔
      (buildDecision (if B = [] then "accept" else "reject") B W fc t i fnd).blockers = []) := by
  split_ifs with h
  · simp [buildDecision, h]
  · constructor
    · intro hc
      exact absurd hc (by simp [buildDecision])
    · intro hb
      exact absurd hb h

/-- Claim C1: for every analyzed NZB, including one whose analysis threw and
was converted to an error decision, `decision = accept` iff the blocker set
is empty. -/
theorem analyze_accept_iff_no_blockers
    (parseResult : Except JsError (List NzbFile × Option JsStr)) (nzbIndex : Nat)
    (cfg : TriageConfig) (env : TriageEnv) :
    (analyzeNzbOutcome parseResult nzbIndex cfg env).decision = "accept" ↔
    (analyzeNzbOutcome parseResult nzbIndex cfg env).blockers = [] := by
  cases parseResult with
  | error e =>
    have hdec : (analyzeNzbOutcome (Except.error e) nzbIndex cfg env).decision
        = "reject" := rfl
    have hblk : (analyzeNzbOutcome (Except.error e) nzbIndex cfg env).blockers
        = ["analysis-error"] := rfl
    rw [hdec, hblk]
    constructor
    · intro h
      exact absurd h (by decide)
    · intro h
      exact absurd h (by simp)
  | ok fs =>
    show (analyzeSingleNzb fs.1 fs.2 nzbIndex cfg env).decision = "accept" ↔
      (analyzeSingleNzb fs.1 fs.2 nzbIndex cfg env).blockers = []
    unfold analyzeSingleNzb
    split_ifs
    · exact buildDecision_accept_iff _ _ _ _ _ _
    · exact buildDecision_accept_iff _ _ _ _ _ _

theorem runStatCheck_checked_of_fresh (env : TriageEnv) (archive : NzbFile)
    (seg : Segment) (st : AnalyzeSt) (h1 : seg.id ≠ []) (h2 : seg.id ∉ st.checked) :
    (runStatCheck env archive seg st).checked = st.checked ++ [seg.id] := by
  unfold runStatCheck
  rw [if_neg (by simp [h1, h2])]
  rcases henv : env.stat seg.id with _ | err
  · simp only [henv]
  · simp only [henv]
    split_ifs <;> rfl

theorem runStatCheck_checked_le (env : TriageEnv) (archive : NzbFile)
    (seg : Segment) (st : AnalyzeSt) :
    (runStatCheck env archive seg st).checked.length ≤ st.checked.length + 1 := by
  unfold runStatCheck
  split_ifs with h
  · omega
  · rcases henv : env.stat seg.id with _ | err
    · simp only [henv, List.length_append, List.length_cons, List.length_nil]
      omega
    · simp only [henv]
      split_ifs <;>
        simp only [List.length_append, List.length_cons, List.length_nil] <;> omega

theorem fold_runStatCheck_checked (env : TriageEnv) (archive : NzbFile) :
    ∀ (samples : List Segment) (st : AnalyzeSt),
      (∀ seg ∈ samples, seg.id ≠ [] ∧ seg.id ∉ st.checked) →
      (samples.map Segment.id).Nodup →
      (samples.foldl (fun st seg => runStatCheck env archive seg st) st).checked
        = st.checked ++ samples.map Segment.id := by
  intro samples
  induction samples with
  | nil =>
    intro st _ _
    simp
  | cons seg rest ih =>
    intro st hfresh hnd
    rw [List.map_cons] at hnd
    rw [List.foldl_cons]
    have hch := runStatCheck_checked_of_fresh env archive seg st
      (hfresh seg (by simp)).1 (hfresh seg (by simp)).2
    rw [ih (runStatCheck env archive seg st) ?_ hnd.of_cons]
    · rw [hch]
      simp
    · intro s hs
      refine ⟨(hfresh s (by simp [hs])).1, ?_⟩
      rw [hch]
      simp only [List.mem_append, List.mem_singleton]
      rintro (hin | hid)
      · exact (hfresh s (by simp [hs])).2 hin
      · have := (List.nodup_cons.mp hnd).1
        exact this (hid ▸ List.mem_map_of_mem Segment.id hs)

theorem foldArchiveStat_checked_le (env : TriageEnv) :
    ∀ (archives : List NzbFile) (st : AnalyzeSt),
      ((archives.foldl
        (fun st archive =>
          match archive.segments.find? (fun seg => seg.id ≠ [] ∧ seg.id ∉ st.checked) with
          | some seg => runStatCheck env archive seg st
          | none => st)
        st).checked.length) ≤ st.checked.length + archives.length := by
  intro archives
  induction archives with
  | nil =>
    intro st
    simp
  | cons a rest ih =>
    intro st
    rw [List.foldl_cons]
    have hstep : ∀ st2 : AnalyzeSt,
        ((match a.segments.find? (fun seg => seg.id ≠ [] ∧ seg.id ∉ st2.checked) with
          | some seg => runStatCheck env a seg st2
          | none => st2) : AnalyzeSt).checked.length ≤ st2.checked.length + 1 := by
      intro st2
      rcases hf : a.segments.find? (fun seg => seg.id ≠ [] ∧ seg.id ∉ st2.checked) with _ | seg
      · simp only [hf]
        omega
      · simp only [hf]
        exact runStatCheck_checked_le env a seg st2
    calc _ ≤ _ + rest.length := ih _
    _ ≤ st.checked.length + 1 + rest.length := by
        have := hstep st
        omega
    _ = st.checked.length + (a :: rest).length := by
        simp only [List.length_cons]
        omega

/-- Claim C3 counterexample ingredients: deterministic oracles (all STATs
succeed, every remote inspection reports `rar-stored`, shuffles are the
identity) and a run with `statSampleCount = 1`. -/
def triageSampleEnv : TriageEnv :=
  { stat := fun _ => none, localInspect := fun _ => ("archive-not-found", none),
    nntpStatus := fun _ => "rar-stored", shuffleSeg := id, shuffleFiles := id,
    shufflePairs := id }

def triageSampleCfg : TriageConfig :=
  { archiveDirs := [], poolAvailable := true, nntpError := none,
    statSampleCount := some 1, archiveSampleCount := some 1 }

/-- A primary archive `x.rar` with two segments, ids `"a"` and `"b"`. -/
def triageSampleFile : NzbFile :=
  { subject := [], filename := some (strUnits "x.rar"),
    extension := some (strUnits ".rar"),
    segments := [⟨1, 10, [97]⟩, ⟨2, 10, [98]⟩] }

/-- Claim C3 counterexample: with `statSampleCount = 1`, a primary archive
whose first segment (id `"a"`) was already checked, and one remaining
unchecked segment, the extra-sampling phase issues one further STAT probe
(the checked set grows from 1 to 2 ids), whereas the claim's
`min(statSampleCount − 1, remaining) = min(0, 1) = 0` predicts none. -/
theorem extraStatPhase_counterexample :
    (extraStatPhase triageSampleEnv triageSampleCfg [triageSampleFile]
        (some triageSampleFile) ⟨[], [], [], [[97]]⟩).checked = [[97], [98]] ∧
    min (1 - 1) 1 = 0 :=
  ⟨rfl, rfl⟩

/-- Claim C3 (amended): when a stored archive was confirmed and the blockers
set is empty, the analyzer issues extra STAT probes on exactly
`min(max(0, ⌊statSampleCount⌋), remaining unchecked segments)` additional
segments of the primary archive, and then issues at most
`max(1, ⌊archiveSampleCount⌋)` further probes, on the first unchecked
segment of other archive candidates that have segments.  Probe counts are
observed through the growth of the checked-segment set; the shuffles are
assumed permutations and the primary's segment ids duplicate-free. -/
theorem extraStatPhase_probe_counts (env : TriageEnv) (cfg : TriageConfig)
    (primary : NzbFile) (st : AnalyzeSt)
    (hshuffleSeg : ∀ l : List Segment, List.Perm (env.shuffleSeg l) l)
    (hids : (primary.segments.map Segment.id).Nodup) :
    ((extraPrimaryStat env cfg (some primary) st).checked.length
        = st.checked.length +
          min (max 0 (cfg.statSampleCount.getD 0)).toNat
            (primary.segments.filter
              (fun seg => seg.id ≠ [] ∧ seg.id ∉ st.checked)).length) ∧
    (∀ (archiveCandidates : List NzbFile) (primaryArchive : Option NzbFile)
        (st2 : AnalyzeSt),
      (extraArchiveStat env cfg archiveCandidates primaryArchive st2).checked.length
        ≤ st2.checked.length + (max 1 (cfg.archiveSampleCount.getD 1)).toNat) := by
  constructor
  · unfold extraPrimaryStat
    dsimp only
    split_ifs with hgo
    · set available := primary.segments.filter
        (fun seg => seg.id ≠ [] ∧ seg.id ∉ st.checked) with havail
      by_cases hav : available = []
      · rw [hav]
        simp [pickRandomElements]
      · set k := min (max 0 (cfg.statSampleCount.getD 0)).toNat available.length with hk
        have hlen : (env.shuffleSeg available).length = available.length :=
          (hshuffleSeg available).length_eq
        have hsamples : pickRandomElements env.shuffleSeg available k
            = (env.shuffleSeg available).take (min k available.length) := by
          rw [pickRandomElements, if_neg hav]
        have hmem : ∀ seg ∈ (env.shuffleSeg available).take (min k available.length),
            seg.id ≠ [] ∧ seg.id ∉ st.checked := by
          intro seg hseg
          have : seg ∈ available :=
            (hshuffleSeg available).subset (List.mem_of_mem_take hseg)
          have := List.mem_filter.mp this
          simpa using this.2
        have hnd : (((env.shuffleSeg available).take (min k available.length)).map
            Segment.id).Nodup := by
          have h1 : (available.map Segment.id).Nodup := by
            have : List.Sublist (available.map Segment.id)
                (primary.segments.map Segment.id) :=
              (List.filter_sublist _).map Segment.id
            exact hids.sublist this
          have h2 : ((env.shuffleSeg available).map Segment.id).Nodup :=
            (((hshuffleSeg available).map Segment.id).nodup_iff).mpr h1
          have h3 : List.Sublist (((env.shuffleSeg available).take
              (min k available.length)).map Segment.id)
              ((env.shuffleSeg available).map Segment.id) :=
            (List.take_sublist _ _).map Segment.id
          exact h2.sublist h3
        rw [hsamples, fold_runStatCheck_checked env primary _ st hmem hnd]
        simp only [List.length_append, List.length_map, List.length_take, hlen]
        omega
    · push_neg at hgo
      by_cases hz : (max 0 (cfg.statSampleCount.getD 0)).toNat > 0
      · have hseg : primary.segments = [] := hgo hz
        rw [hseg]
        simp
      · have : (max 0 (cfg.statSampleCount.getD 0)).toNat = 0 := by omega
        rw [this]
        simp
  · intro archiveCandidates primaryArchive st2
    unfold extraArchiveStat
    have hle := foldArchiveStat_checked_le env
      (pickRandomElements env.shuffleFiles
        ((archiveCandidates.filter
          (fun a => a.segments.length > 0 ∧ primaryArchive ≠ some a)).filter (fun a =>
            match a.segments.head? with
            | some seg0 => seg0.id ≠ [] ∧ seg0.id ∉ st2.checked
            | none => false))
        ((max 1 (cfg.archiveSampleCount.getD 1)).toNat)) st2
    refine le_trans hle ?_
    have : ∀ (l : List NzbFile) (n : Nat),
        (pickRandomElements env.shuffleFiles l n).length ≤ n := by
      intro l n
      unfold pickRandomElements
      split_ifs
      · simp
      · simp only [List.length_take]
        omega
    have := this ((archiveCandidates.filter
          (fun a => a.segments.length > 0 ∧ primaryArchive ≠ some a)).filter (fun a =>
            match a.segments.head? with
            | some seg0 => seg0.id ≠ [] ∧ seg0.id ∉ st2.checked
            | none => false))
        ((max 1 (cfg.archiveSampleCount.getD 1)).toNat)
    omega

/-- Witness for the amended claim C3 at the counterexample scenario: one
extra primary probe (`min(1, 1) = 1`) and at most one other-archive probe. -/
theorem extraStatPhase_probe_counts_witness :
    ((extraPrimaryStat triageSampleEnv triageSampleCfg (some triageSampleFile)
        ⟨[], [], [], [[97]]⟩).checked.length
      = (⟨[], [], [], [[97]]⟩ : AnalyzeSt).checked.length +
        min (max 0 (triageSampleCfg.statSampleCount.getD 0)).toNat
          (triageSampleFile.segments.filter
            (fun seg => seg.id ≠ [] ∧
              seg.id ∉ (⟨[], [], [], [[97]]⟩ : AnalyzeSt).checked)).length) ∧
    (∀ (archiveCandidates : List NzbFile) (primaryArchive : Option NzbFile)
        (st2 : AnalyzeSt),
      (extraArchiveStat triageSampleEnv triageSampleCfg archiveCandidates primaryArchive
          st2).checked.length
        ≤ st2.checked.length +
          (max 1 (triageSampleCfg.archiveSampleCount.getD 1)).toNat) :=
  extraStatPhase_probe_counts triageSampleEnv triageSampleCfg triageSampleFile
    ⟨[], [], [], [[97]]⟩ (fun l => List.Perm.refl l) (by decide)

/-! ### The decisions map of `triageAndRank` (`nzbTriageRunner.js`) -/

/-- The observable content of a JS `Map` keyed by URL: an association list
in first-insertion order.  `set` overwrites in place when the key exists,
appends otherwise. -/
def jsMapSet {β : Type} (m : List (JsStr × β)) (k : JsStr) (v : β) :
    List (JsStr × β) :=
  if k ∈ m.map Prod.fst then m.map (fun p => if p.1 = k then (k, v) else p)
  else m ++ [(k, v)]

/-- JS falsy-to-null coercion `x || null` for an optional string. -/
def jsStrOrNull : Option JsStr → Option JsStr
  | some s => if s = [] then none else some s
  | none => none

/-- A decision record as placed into `decisionMap` (the summarized fields
plus the metadata `attachMetadata` adds). -/
structure RunnerDecision where
  status : String
  error : Option JsStr
  blockers : List String
  warnings : List JsStr
  title : Option JsStr
  normalizedTitle : Option JsStr
  indexerId : Option JsStr
  indexerName : Option JsStr

/-- A summarized triage decision as delivered by `summarizeDecision` on one
entry of `summary.decisions` (its full content is irrelevant to the map
keys, so the oracle supplies it directly in summarized form). -/
structure SummarizedDecision where
  status : String
  blockers : List String
  warnings : List JsStr

/-- The three settled outcomes of the triage step: `triageNzbs` resolved
with a summary, it threw (`triageError`, possibly a timeout), or the time
budget was already exhausted so it never ran. -/
inductive TriageOutcome where
  | ran (decisions : List SummarizedDecision)
  | failed (message : Option JsStr) (isTimeout : Bool)
  | budgetExhausted

/-- The effectful inputs of one settled `triageAndRank` run: the download
failures map (url, error message) and fetched payloads (candidate, nzb
text) produced by `downloadNzbs`, its timeout flag, and the triage
outcome. -/
structure RunnerEnv where
  failures : List (JsStr × JsStr)
  payloads : List (Candidate × JsStr)
  downloadTimedOut : Bool
  outcome : TriageOutcome

/-- `attachMetadata`: copy title/indexer metadata from `candidateByUrl`
(a JS map over the selected candidates, so the last set wins). -/
def attachMetadata (selected : List Candidate) (url : JsStr)
    (d : RunnerDecision) : RunnerDecision :=
  match selected.reverse.find? (fun c => c.downloadUrl == url) with
  | some c =>
    { d with title := jsStrOrNull c.title,
             normalizedTitle :=
               if c.normalizedTitle = [] then none else some c.normalizedTitle,
             indexerId := jsStrOrNull c.indexerId,
             indexerName := jsStrOrNull c.indexerName }
  | none => d

/-- The `fetch-error` decision for one failed download. -/
def fetchErrorDecision (msg : JsStr) : RunnerDecision :=
  { status := "fetch-error",
    error := some (if msg = [] then strUnits "Failed to fetch NZB payload" else msg),
    blockers := ["fetch-error"], warnings := [], title := none,
    normalizedTitle := none, indexerId := none, indexerName := none }

/-- The `pending`/`skipped` back-fill decision. -/
def pendingOrSkipped (timedOut : Bool) : RunnerDecision :=
  { status := if timedOut then "pending" else "skipped", error := none,
    blockers := [], warnings := [], title := none, normalizedTitle := none,
    indexerId := none, indexerName := none }

/-- A summarized triage decision lifted into the map's record shape. -/
def summarizedToDecision (d : SummarizedDecision) : RunnerDecision :=
  { status := d.status, error := none, blockers := d.blockers,
    warnings := d.warnings, title := none, normalizedTitle := none,
    indexerId := none, indexerName := none }

/-- The `triage-error` back-fill decision for fetched payloads when
`triageNzbs` threw. -/
def triageErrorDecision (msg : Option JsStr) : RunnerDecision :=
  { status := "error", error := none, blockers := ["triage-error"],
    warnings := match msg with | some s => if s = [] then [] else [s] | none => [],
    title := none, normalizedTitle := none, indexerId := none,
    indexerName := none }

/-- The title-deduplication loop over the ranked candidates: a candidate
with a non-empty (truthy) `normalizedTitle` already seen is dropped, every
other candidate is kept. -/
def titleDedupAux (seen : List JsStr) : List Candidate → List Candidate
  | [] => []
  | c :: rest =>
    if c.normalizedTitle ≠ [] then
      if c.normalizedTitle ∈ seen then titleDedupAux seen rest
      else c :: titleDedupAux (seen ++ [c.normalizedTitle]) rest
    else c :: titleDedupAux seen rest

def titleDedup (cands : List Candidate) : List Candidate := titleDedupAux [] cands

/-- The selection pipeline of `triageAndRank`: build candidates (URL dedup),
rank, deduplicate by normalized title, truncate to
`max(1, maxCandidates)`. -/
def selectedCandidates (nzbResults : List NzbResult) (preferredSizeBytes : Option Int)
    (preferredIndexerIds : Option (List JsStr)) (maxCandidates : Int) :
    List Candidate :=
  let candidates := rankCandidates (buildCandidates nzbResults) preferredSizeBytes
    (normalizeIndexerSet preferredIndexerIds)
  let uniqueCandidates := titleDedup candidates
  uniqueCandidates.take (min (max 1 maxCandidates).toNat uniqueCandidates.length)

/-- Phase 1 of the map assembly: one `fetch-error` entry per download
failure. -/
def runnerPhase1 (selected : List Candidate) (env : RunnerEnv) :
    List (JsStr × RunnerDecision) :=
  env.failures.foldl
    (fun m p => jsMapSet m p.1 (attachMetadata selected p.1 (fetchErrorDecision p.2)))
    []

/-- Phase 3: when the triage ran, its decisions are written back by payload
position (`summary.decisions.forEach((decision, index) => ...)`, i.e. a zip
of payloads with decisions). -/
def runnerPhase3 (selected : List Candidate) (env : RunnerEnv)
    (m : List (JsStr × RunnerDecision)) : List (JsStr × RunnerDecision) :=
  match env.outcome with
  | .ran decs =>
    (env.payloads.zip decs).foldl
      (fun m pd => jsMapSet m pd.1.1.downloadUrl
        (attachMetadata selected pd.1.1.downloadUrl (summarizedToDecision pd.2)))
      m
  | _ => m

/-- Phase 4: when the triage threw (summary still null), every fetched
payload not yet decided gets a `triage-error` entry. -/
def runnerPhase4 (selected : List Candidate) (env : RunnerEnv)
    (m : List (JsStr × RunnerDecision)) : List (JsStr × RunnerDecision) :=
  match env.outcome with
  | .failed msg _ =>
    env.payloads.foldl
      (fun m p =>
        if p.1.downloadUrl ∈ m.map Prod.fst then m
        else jsMapSet m p.1.downloadUrl
          (attachMetadata selected p.1.downloadUrl (triageErrorDecision msg)))
      m
  | _ => m

/-- The final back-fill: every selected candidate without a decision gets
`pending` (when timed out) or `skipped`. -/
def runnerFill (selected : List Candidate) (timedOut : Bool)
    (m : List (JsStr × RunnerDecision)) : List (JsStr × RunnerDecision) :=
  selected.foldl
    (fun m c =>
      if c.downloadUrl ∈ m.map Prod.fst then m
      else jsMapSet m c.downloadUrl
        (attachMetadata selected c.downloadUrl (pendingOrSkipped timedOut)))
    m

/-- `timedOut` as of the final back-fill: the download flag, or a triage
timeout (`TRIAGE_TIMEOUT` code), or an exhausted budget. -/
def runnerTimedOut2 (env : RunnerEnv) : Bool :=
  env.downloadTimedOut ||
    (match env.outcome with
     | .failed _ isTimeout => isTimeout
     | .budgetExhausted => true
     | .ran _ => false)

/-- The full `decisionMap` assembly of one settled `triageAndRank` run. -/
def triageDecisionMap (selected : List Candidate) (env : RunnerEnv) :
    List (JsStr × RunnerDecision) :=
  if selected = [] then []
  else if env.payloads = [] then
    runnerFill selected env.downloadTimedOut (runnerPhase1 selected env)
  else
    runnerFill selected (runnerTimedOut2 env)
      (runnerPhase4 selected env (runnerPhase3 selected env (runnerPhase1 selected env)))

/-- `triageAndRank`, reduced to its observable decisions map. -/
def triageAndRankDecisions (nzbResults : List NzbResult)
    (preferredSizeBytes : Option Int) (preferredIndexerIds : Option (List JsStr))
    (maxCandidates : Int) (env : RunnerEnv) : List (JsStr × RunnerDecision) :=
  triageDecisionMap
    (selectedCandidates nzbResults preferredSizeBytes preferredIndexerIds maxCandidates)
    env

/-- The input of the C2 counterexample: two results with distinct download
URLs `"u1"`, `"u2"` but the same title `"T"`. -/
def triageC2Results : List NzbResult :=
  [ { downloadUrl := some [117, 49], title := some [84], size := some 100,
      indexerId := none, indexerName := none },
    { downloadUrl := some [117, 50], title := some [84], size := some 50,
      indexerId := none, indexerName := none } ]

/-- The settled-run oracle of the C2 scenario: no downloads completed or
failed before the budget ran out. -/
def triageC2Env : RunnerEnv :=
  { failures := [], payloads := [], downloadTimedOut := false,
    outcome := TriageOutcome.budgetExhausted }

theorem jsMapSet_overwrite_keys {β : Type} (m : List (JsStr × β)) (k : JsStr)
    (v : β) :
    (m.map (fun p => if p.1 = k then (k, v) else p)).map Prod.fst
      = m.map Prod.fst := by
  rw [List.map_map]
  apply List.map_congr_left
  intro p hp
  by_cases hpk : p.1 = k
  · simp [Function.comp, hpk]
  · simp [Function.comp, hpk]

theorem jsMapSet_keys_mem {β : Type} (m : List (JsStr × β)) (k : JsStr) (v : β)
    (u : JsStr) :
    u ∈ (jsMapSet m k v).map Prod.fst ↔ u ∈ m.map Prod.fst ∨ u = k := by
  unfold jsMapSet
  split_ifs with hh
  · rw [jsMapSet_overwrite_keys]
    constructor
    · exact Or.inl
    · rintro (h | rfl)
      · exact h
      · exact hh
  · simp [List.map_append]

theorem jsMapSet_keys_nodup {β : Type} (m : List (JsStr × β)) (k : JsStr) (v : β)
    (h : (m.map Prod.fst).Nodup) : ((jsMapSet m k v).map Prod.fst).Nodup := by
  unfold jsMapSet
  split_ifs with hh
  · rw [jsMapSet_overwrite_keys]
    exact h
  · rw [List.map_append]
    apply List.Nodup.append h (List.nodup_singleton k)
    intro a ha hak
    rw [List.mem_singleton] at hak
    exact hh (hak ▸ ha)

theorem jsMapFold_keys {β γ : Type} (key : γ → JsStr) (val : γ → β) :
    ∀ (l : List γ) (m : List (JsStr × β)),
      ((m.map Prod.fst).Nodup →
        ((l.foldl (fun m x => jsMapSet m (key x) (val x)) m).map Prod.fst).Nodup) ∧
      (∀ u, u ∈ (l.foldl (fun m x => jsMapSet m (key x) (val x)) m).map Prod.fst ↔
        u ∈ m.map Prod.fst ∨ u ∈ l.map key) := by
  intro l
  induction l with
  | nil =>
    intro m
    refine ⟨fun h => h, fun u => ?_⟩
    simp
  | cons x rest ih =>
    intro m
    rw [List.foldl_cons]
    refine ⟨fun hnd => (ih _).1 (jsMapSet_keys_nodup m (key x) (val x) hnd),
      fun u => ?_⟩
    rw [(ih _).2 u, jsMapSet_keys_mem]
    simp only [List.map_cons, List.mem_cons]
    tauto

theorem jsMapFoldGuard_keys {β γ : Type} (key : γ → JsStr) (val : γ → β) :
    ∀ (l : List γ) (m : List (JsStr × β)),
      ((m.map Prod.fst).Nodup →
        ((l.foldl
          (fun m x =>
            if key x ∈ m.map Prod.fst then m else jsMapSet m (key x) (val x))
          m).map Prod.fst).Nodup) ∧
      (∀ u, u ∈ (l.foldl
          (fun m x =>
            if key x ∈ m.map Prod.fst then m else jsMapSet m (key x) (val x))
          m).map Prod.fst ↔
        u ∈ m.map Prod.fst ∨ u ∈ l.map key) := by
  intro l
  induction l with
  | nil =>
    intro m
    refine ⟨fun h => h, fun u => ?_⟩
    simp
  | cons x rest ih =>
    intro m
    rw [List.foldl_cons]
    by_cases hhas : key x ∈ m.map Prod.fst
    · rw [if_pos hhas]
      refine ⟨(ih m).1, fun u => ?_⟩
      rw [(ih m).2 u]
      simp only [List.map_cons, List.mem_cons]
      constructor
      · rintro (h | h)
        · exact Or.inl h
        · exact Or.inr (Or.inr h)
      · rintro (h | h | h)
        · exact Or.inl h
        · exact Or.inl (by rw [h]; exact hhas)
        · exact Or.inr h
    · rw [if_neg hhas]
      refine ⟨fun hnd => (ih _).1 (jsMapSet_keys_nodup m (key x) (val x) hnd),
        fun u => ?_⟩
      rw [(ih _).2 u, jsMapSet_keys_mem]
      simp only [List.map_cons, List.mem_cons]
      tauto

theorem runnerPhase1_keys (selected : List Candidate) (env : RunnerEnv) :
    ((runnerPhase1 selected env).map Prod.fst).Nodup ∧
    ∀ u, u ∈ (runnerPhase1 selected env).map Prod.fst ↔
      u ∈ env.failures.map Prod.fst := by
  have h := jsMapFold_keys Prod.fst
    (fun p => attachMetadata selected p.1 (fetchErrorDecision p.2)) env.failures
    ([] : List (JsStr × RunnerDecision))
  refine ⟨h.1 (by simp), fun u => ?_⟩
  have h2 := h.2 u
  unfold runnerPhase1
  simpa using h2

theorem runnerPhase3_keys (selected : List Candidate) (env : RunnerEnv)
    (m : List (JsStr × RunnerDecision)) :
    ((m.map Prod.fst).Nodup → ((runnerPhase3 selected env m).map Prod.fst).Nodup) ∧
    (∀ u, u ∈ m.map Prod.fst → u ∈ (runnerPhase3 selected env m).map Prod.fst) ∧
    (∀ u, u ∈ (runnerPhase3 selected env m).map Prod.fst →
      u ∈ m.map Prod.fst ∨ u ∈ env.payloads.map (fun p => p.1.downloadUrl)) := by
  unfold runnerPhase3
  cases henv : env.outcome with
  | ran decs =>
    have h := jsMapFold_keys (fun pd : (Candidate × JsStr) × SummarizedDecision =>
        pd.1.1.downloadUrl)
      (fun pd => attachMetadata selected pd.1.1.downloadUrl
        (summarizedToDecision pd.2))
      (env.payloads.zip decs) m
    refine ⟨h.1, fun u hu => (h.2 u).mpr (Or.inl hu), fun u hu => ?_⟩
    rcases (h.2 u).mp hu with hm | hz
    · exact Or.inl hm
    · right
      rcases List.mem_map.mp hz with ⟨pd, hpd, hurl⟩
      obtain ⟨pc, d⟩ := pd
      have hmem : pc ∈ env.payloads := (List.of_mem_zip hpd).1
      have hin : pc.1.downloadUrl ∈ env.payloads.map (fun p => p.1.downloadUrl) :=
        List.mem_map_of_mem _ hmem
      simpa [← hurl] using hin
  | failed msg isT =>
    exact ⟨fun h => h, fun u hu => hu, fun u hu => Or.inl hu⟩
  | budgetExhausted =>
    exact ⟨fun h => h, fun u hu => hu, fun u hu => Or.inl hu⟩

theorem runnerPhase4_keys (selected : List Candidate) (env : RunnerEnv)
    (m : List (JsStr × RunnerDecision)) :
    ((m.map Prod.fst).Nodup → ((runnerPhase4 selected env m).map Prod.fst).Nodup) ∧
    (∀ u, u ∈ m.map Prod.fst → u ∈ (runnerPhase4 selected env m).map Prod.fst) ∧
    (∀ u, u ∈ (runnerPhase4 selected env m).map Prod.fst →
      u ∈ m.map Prod.fst ∨ u ∈ env.payloads.map (fun p => p.1.downloadUrl)) := by
  unfold runnerPhase4
  cases henv : env.outcome with
  | ran decs =>
    exact ⟨fun h => h, fun u hu => hu, fun u hu => Or.inl hu⟩
  | failed msg isT =>
    have h := jsMapFoldGuard_keys (fun p : Candidate × JsStr => p.1.downloadUrl)
      (fun p => attachMetadata selected p.1.downloadUrl (triageErrorDecision msg))
      env.payloads m
    refine ⟨h.1, fun u hu => (h.2 u).mpr (Or.inl hu), fun u hu => ?_⟩
    exact (h.2 u).mp hu
  | budgetExhausted =>
    exact ⟨fun h => h, fun u hu => hu, fun u hu => Or.inl hu⟩

theorem runnerFill_keys (selected : List Candidate) (t : Bool)
    (m : List (JsStr × RunnerDecision)) :
    ((m.map Prod.fst).Nodup → ((runnerFill selected t m).map Prod.fst).Nodup) ∧
    (∀ u, u ∈ (runnerFill selected t m).map Prod.fst ↔
      u ∈ m.map Prod.fst ∨ u ∈ selected.map Candidate.downloadUrl) := by
  have h := jsMapFoldGuard_keys Candidate.downloadUrl
    (fun c => attachMetadata selected c.downloadUrl (pendingOrSkipped t)) selected m
  exact ⟨h.1, fun u => h.2 u⟩

/-- Claim C2 counterexample: the input `triageC2Results` holds two results
with distinct download URLs but one shared title; the title dedup keeps
only the first, so the URL `"u2"` - a candidate downloadUrl present in the
input - never appears among the keys of the returned decisions map. -/
theorem triage_decisions_missing_input_url :
    some [117, 50] ∈ triageC2Results.map NzbResult.downloadUrl ∧
    [117, 50] ∉ (triageAndRankDecisions triageC2Results none none 25
      triageC2Env).map Prod.fst := by
  decide

/-- Claim C2 (amended): in every settled `triageAndRank` run, the keys of
the returned decisions map are exactly the download URLs of the selected
candidates - the input candidates that survive URL dedup, ranking, title
dedup and the `maxCandidates` truncation - each appearing exactly once;
input URLs dropped by that selection never appear.  The download oracle is
assumed consistent: failure keys and payload candidates come from the
selected list. -/
theorem triageAndRank_decisions_keys (nzbResults : List NzbResult)
    (preferredSizeBytes : Option Int) (preferredIndexerIds : Option (List JsStr))
    (maxCandidates : Int) (env : RunnerEnv)
    (hfail : ∀ q ∈ env.failures,
      q.1 ∈ (selectedCandidates nzbResults preferredSizeBytes preferredIndexerIds
        maxCandidates).map Candidate.downloadUrl)
    (hpay : ∀ pc ∈ env.payloads,
      pc.1 ∈ selectedCandidates nzbResults preferredSizeBytes preferredIndexerIds
        maxCandidates) :
    ((triageAndRankDecisions nzbResults preferredSizeBytes preferredIndexerIds
        maxCandidates env).map Prod.fst).Nodup ∧
    (∀ u : JsStr,
      u ∈ (triageAndRankDecisions nzbResults preferredSizeBytes preferredIndexerIds
        maxCandidates env).map Prod.fst ↔
      u ∈ (selectedCandidates nzbResults preferredSizeBytes preferredIndexerIds
        maxCandidates).map Candidate.downloadUrl) := by
  unfold triageAndRankDecisions triageDecisionMap
  set S := selectedCandidates nzbResults preferredSizeBytes preferredIndexerIds
    maxCandidates with hS
  have hfail2 : ∀ u, u ∈ env.failures.map Prod.fst →
      u ∈ S.map Candidate.downloadUrl := by
    intro u hu
    rcases List.mem_map.mp hu with ⟨q, hq, rfl⟩
    exact hfail q hq
  have hpay2 : ∀ u, u ∈ env.payloads.map (fun p => p.1.downloadUrl) →
      u ∈ S.map Candidate.downloadUrl := by
    intro u hu
    rcases List.mem_map.mp hu with ⟨pc, hpc, rfl⟩
    exact List.mem_map_of_mem _ (hpay pc hpc)
  by_cases hsel : S = []
  · rw [if_pos hsel]
    refine ⟨by simp, fun u => ?_⟩
    simp [hsel]
  · rw [if_neg hsel]
    have h1 := runnerPhase1_keys S env
    by_cases hp : env.payloads = []
    · rw [if_pos hp]
      have h2 := runnerFill_keys S env.downloadTimedOut (runnerPhase1 S env)
      refine ⟨h2.1 h1.1, fun u => ?_⟩
      rw [h2.2 u]
      constructor
      · rintro (hm | hs)
        · exact hfail2 u ((h1.2 u).mp hm)
        · exact hs
      · exact Or.inr
    · rw [if_neg hp]
      have h3 := runnerPhase3_keys S env (runnerPhase1 S env)
      have h4 := runnerPhase4_keys S env (runnerPhase3 S env (runnerPhase1 S env))
      have h5 := runnerFill_keys S (runnerTimedOut2 env)
        (runnerPhase4 S env (runnerPhase3 S env (runnerPhase1 S env)))
      refine ⟨h5.1 (h4.1 (h3.1 h1.1)), fun u => ?_⟩
      rw [h5.2 u]
      constructor
      · rintro (hm | hs)
        · rcases h4.2.2 u hm with hm3 | hpayu
          · rcases h3.2.2 u hm3 with hm1 | hpayu
            · exact hfail2 u ((h1.2 u).mp hm1)
            · exact hpay2 u hpayu
          · exact hpay2 u hpayu
        · exact hs
      · exact Or.inr

/-- Witness for the amended claim C2, at the counterexample scenario (the
oracle consistency hypotheses hold vacuously: no failures, no payloads). -/
theorem triageAndRank_decisions_keys_witness :
    ((triageAndRankDecisions triageC2Results none none 25
        triageC2Env).map Prod.fst).Nodup ∧
    (∀ u : JsStr,
      u ∈ (triageAndRankDecisions triageC2Results none none 25
        triageC2Env).map Prod.fst ↔
      u ∈ (selectedCandidates triageC2Results none none 25).map
        Candidate.downloadUrl) :=
  triageAndRank_decisions_keys triageC2Results none none 25 triageC2Env
    (by decide) (by decide)

end UsenetStreamer
